import Mathlib

/-!
# Shallow embedding of the utterance-queue scheduling core

This file models the scheduling core of the `utterance-queue` repository:
the `UtteranceQueue` class (`src/js/UtteranceQueue.ts`), the alert
resolution of `Utterance` (`src/js/Utterance.ts`), the default
priority-comparison hook of `Announcer` (`src/js/Announcer.ts`) and the
overridden hook of `SpeechSynthesisAnnouncer`
(`src/js/SpeechSynthesisAnnouncer.ts`).

Modelling conventions:

* JavaScript object identity of `Utterance` instances is modelled by a
  numeric `id` field (the source itself allocates `globalIdCounter++` ids);
  identity of `UtteranceWrapper` queue entries is modelled by a `wid` field.
* The timing fields `timeInQueue` and `stableTime` can hold
  `Number.POSITIVE_INFINITY` in the source (`announceImmediately`), so they
  live in `QTime`, rationals extended with an infinity that absorbs
  addition and dominates comparison, matching IEEE infinity arithmetic on
  the operations the source performs (`+= dt`, `Math.max`, `<`).
* `priorityProperty.value` is read synchronously by the queue; a run of a
  queue operation sees a fixed value, modelled as the `priority` field.
* The browser side (aria-live DOM, Web Speech) is outside the queue; a call
  to `announcer.announce` is recorded in an `announced` log, and
  `announcer.onUtterancePriorityChange` in a `notified` log.  Within this
  repository neither announcer mutates `UtteranceQueue.queue`
  synchronously, so the logs are sound models of those calls.
* The response-collector (`responseCollector.collectResponses`) is treated
  as the opaque resolver the specification declares it to be: a
  `ResponsePacketModel` carries the two strings the collector would
  produce with and without `ignoreProperties`.
-/

/-- Source `string | number | null`, the `ResolvedResponse` union of
`ResponsePacket.ts`. -/
inductive ResolvedResponse where
  | null : ResolvedResponse
  | str : String → ResolvedResponse
  | num : ℚ → ResolvedResponse
deriving DecidableEq

/-- Time values as stored in `UtteranceWrapper.timeInQueue` / `stableTime`:
a finite number of milliseconds or `Number.POSITIVE_INFINITY`. -/
inductive QTime where
  | fin : ℚ → QTime
  | top : QTime
deriving DecidableEq

namespace QTime

/-- Source `t + d` for finite `d`, with `Infinity + d = Infinity` (IEEE). -/
def add : QTime → ℚ → QTime
  | .fin q, d => .fin (q + d)
  | .top, _ => .top

/-- Strict `<` as a Bool, with `q < Infinity` for every finite `q`
(IEEE comparison). -/
def blt : QTime → QTime → Bool
  | .fin a, .fin b => decide (a < b)
  | .fin _, .top => true
  | .top, _ => false

/-- Binary `Math.max` on time values. -/
def max2 : QTime → QTime → QTime
  | .fin a, .fin b => .fin (max a b)
  | _, _ => .top

/-- The time value is `≥ 0` (true of every value the queue ever stores). -/
def nonneg : QTime → Prop
  | .fin q => 0 ≤ q
  | .top => True

instance : DecidablePred nonneg := fun t => by
  cases t with
  | fin q => exact inferInstanceAs (Decidable (0 ≤ q))
  | top => exact inferInstanceAs (Decidable True)

end QTime

/-- Source `Math.max( ...times )` over the (non-empty, in the source) list of
`timeInQueue` values collected by `removeOthersAndUpdateUtteranceWrapper`. -/
def joinMax : List QTime → QTime
  | [] => .fin 0
  | t :: ts => ts.foldl QTime.max2 t

/-- Model of a `ResponsePacket` together with the opaque
response-collector resolution: the string `collectResponses` returns when
the collector Properties are respected, and the one it returns with
`ignoreProperties = true`. -/
structure ResponsePacketModel where
  collectedRespecting : String
  collectedIgnoring : String
deriving DecidableEq

/-- The `AlertableNoUtterance` union of `Utterance.ts`:
`ResolvedResponse | (() => string) | ResponsePacket`.  A function alertable
is modelled by the value it returns when called (`thunk`). -/
inductive AlertableNonUtterance where
  | resolved : ResolvedResponse → AlertableNonUtterance
  | thunk : ResolvedResponse → AlertableNonUtterance
  | packet : ResponsePacketModel → AlertableNonUtterance
deriving DecidableEq

/-- Model of an `Utterance` (`src/js/Utterance.ts`).  `id` models JS
instance identity; `predicateHolds` the value `predicate()` returns;
`priority` the current `priorityProperty.value`; `cancelSelfOption` /
`cancelOtherOption` the (possibly absent) `announcerOptions.cancelSelf` /
`announcerOptions.cancelOther` entries. -/
structure Utterance where
  id : ℕ
  alert : AlertableNonUtterance
  predicateHolds : Bool
  alertStableDelay : ℚ
  alertMaximumDelay : ℚ
  priority : ℤ
  cancelSelfOption : Option Bool
  cancelOtherOption : Option Bool
deriving DecidableEq

/-- Source `Number.MAX_VALUE`, the default `alertMaximumDelay`. -/
def numberMaxValue : ℚ := 2 ^ 1024 - 2 ^ 971

/-- Defaults of the `Utterance` constructor options
(`alert: null`, `predicate: () => true`, `alertStableDelay: 200`,
`alertMaximumDelay: Number.MAX_VALUE`, `announcerOptions: {}`,
`priority: 1`). -/
def freshUtterance (id : ℕ) (alert : AlertableNonUtterance) : Utterance :=
  { id := id
    alert := alert
    predicateHolds := true
    alertStableDelay := 200
    alertMaximumDelay := numberMaxValue
    priority := 1
    cancelSelfOption := none
    cancelOtherOption := none }

/-- The `IAlertable` union of `Utterance.ts`: an `Utterance` or any
non-`Utterance` alertable. -/
inductive IAlertable where
  | utt : Utterance → IAlertable
  | raw : AlertableNonUtterance → IAlertable
deriving DecidableEq

/-! ## Alert resolution (`Utterance.alertableToText`, `getAlertText`) -/

/-- Source `responseCollector.collectResponses` on a serialized packet, with
`ignoreProperties` forced when `respectResponseCollectorProperties` is
false (`Utterance.getAlertStringFromResponsePacket`). -/
def collectPacket (p : ResponsePacketModel) (respectResponseCollectorProperties : Bool) : String :=
  if respectResponseCollectorProperties then p.collectedRespecting else p.collectedIgnoring

/-- Source `Utterance.alertableToText` restricted to the non-`Utterance` shapes:
a function is called and its value is assigned directly
(`alert = alertable()`); a `ResponsePacket` goes through the collector;
anything else is returned as-is. -/
def alertableNonUtteranceToText (a : AlertableNonUtterance)
    (respectResponseCollectorProperties : Bool) : ResolvedResponse :=
  match a with
  | .thunk r => r
  | .packet p => .str (collectPacket p respectResponseCollectorProperties)
  | .resolved r => r

/-- Source `Utterance.getAlertText`: resolve the own `_alert` of the utterance
(without the `previousAlertText` bookkeeping side effect, which no queue
operation reads). -/
def getAlertText (respectResponseCollectorProperties : Bool) (u : Utterance) : ResolvedResponse :=
  alertableNonUtteranceToText u.alert respectResponseCollectorProperties

/-- Source `Utterance.alertableToText` (`src/js/Utterance.ts`, lines 278-296):
function alertables are called, `ResponsePacket`s resolved through the
collector, a nested `Utterance` recurses into `getAlertText`, and
everything else resolves to itself. -/
def alertableToText (a : IAlertable) (respectResponseCollectorProperties : Bool) : ResolvedResponse :=
  match a with
  | .raw r => alertableNonUtteranceToText r respectResponseCollectorProperties
  | .utt u => getAlertText respectResponseCollectorProperties u

/-! ## Priority comparison hooks -/

/-- Source `Announcer.shouldUtteranceCancelOther` (`src/js/Announcer.ts`,
lines 112-114): cancel exactly when the new utterance has strictly higher
priority. -/
def defaultShouldUtteranceCancelOther (utterance utteranceToCancel : Utterance) : Bool :=
  decide (utteranceToCancel.priority < utterance.priority)

/-- Source `SpeechSynthesisAnnouncer.shouldUtteranceCancelOther`
(`src/js/SpeechSynthesisAnnouncer.ts`, lines 621-640): on differing
priorities compare them; on equal priorities use the new
`cancelOther` option, or its `cancelSelf` option when the two are the same
instance.  The options default to `true`
(`UTTERANCE_OPTION_DEFAULTS`). -/
def speechSynthesisShouldUtteranceCancelOther (utterance utteranceToCancel : Utterance) : Bool :=
  let cancelSelf := utterance.cancelSelfOption.getD true
  let cancelOther := utterance.cancelOtherOption.getD true
  if utteranceToCancel.priority ≠ utterance.priority then
    decide (utteranceToCancel.priority < utterance.priority)
  else
    if utteranceToCancel.id = utterance.id then cancelSelf else cancelOther

/-! ## Queue state -/

/-- One entry of `UtteranceQueue.queue` (`src/js/UtteranceWrapper.ts`).
`wid` models the JS identity of the wrapper object. -/
structure UtteranceWrapper where
  wid : ℕ
  utterance : Utterance
  timeInQueue : QTime
  stableTime : QTime
deriving DecidableEq

/-- Model of the announcer as seen by the queue: the priority-comparison
hook and the flags `UtteranceQueue` reads. -/
structure AnnouncerModel where
  sc : Utterance → Utterance → Bool
  readyToAnnounce : Bool
  hasSpoken : Bool
  announceImmediatelyUntilSpeaking : Bool
  respectResponseCollectorProperties : Bool

/-- Mutable state of an `UtteranceQueue` instance, plus allocation
counters for fresh `Utterance` ids (`globalIdCounter`) and wrapper
identities, plus the logs of calls the queue makes into the announcer. -/
structure QueueState where
  queue : List UtteranceWrapper
  /-- The key set of `utteranceToPriorityListenerMap`: ids of Utterances
  whose `priorityProperty` currently carries an in-queue listener. -/
  listeners : List ℕ
  muted : Bool
  enabled : Bool
  initialized : Bool
  nextUttId : ℕ
  nextWid : ℕ
  /-- ids of utterances passed to `announcer.announce`, in call order. -/
  announced : List ℕ
  /-- ids passed to `announcer.onUtterancePriorityChange`, in call order. -/
  notified : List ℕ
deriving DecidableEq

/-! ## Queue operations (`src/js/UtteranceQueue.ts`) -/

/-- Source `removeUtterance` (lines 247-257), production build: remove every
wrapper holding this utterance from the queue, then
`removePriorityListeners` on the removed wrappers, which unlinks and
deletes the map entry of the utterance if present.  (`removeOthersAndUpdateUtteranceWrapper`
performs the same removal.) -/
def removeUtterance (uid : ℕ) (st : QueueState) : QueueState :=
  let removed := st.queue.filter (fun x => x.utterance.id == uid)
  { st with
    queue := st.queue.filter (fun x => !(x.utterance.id == uid))
    listeners := removed.foldl (fun ls _ => ls.erase uid) st.listeners }

/-- Source `removeOthersAndUpdateUtteranceWrapper` (lines 321-341): collect the
`timeInQueue` of every queued wrapper of the same utterance, transfer
`Math.max(...times)` onto the incoming wrapper when any exist, then remove
all those wrappers (with their priority listeners). -/
def removeOthersAndUpdateUtteranceWrapper (w : UtteranceWrapper) (st : QueueState) :
    UtteranceWrapper × QueueState :=
  let times := (st.queue.filter (fun x => x.utterance.id == w.utterance.id)).map
    (fun x => x.timeInQueue)
  let w' := if times.isEmpty then w else { w with timeInQueue := joinMax times }
  (w', removeUtterance w.utterance.id st)

/-- The id the (possibly freshly wrapped) utterance of an alertable will
carry: its own id for an `Utterance`, the next `globalIdCounter` value
otherwise. -/
def uidOfAlertable (a : IAlertable) (st : QueueState) : ℕ :=
  match a with
  | .utt u => u.id
  | .raw _ => st.nextUttId

/-- The wrap step shared by `prepareUtterance` and `announceImmediately`:
a non-`Utterance` alertable is wrapped in `new Utterance( { alert } )`. -/
def wrapAlertable (a : IAlertable) (st : QueueState) : Utterance × QueueState :=
  match a with
  | .utt u => (u, st)
  | .raw r => (freshUtterance st.nextUttId r, { st with nextUttId := st.nextUttId + 1 })

/-- Source `prepareUtterance` (lines 226-241): wrap non-`Utterance` alertables,
build a fresh `UtteranceWrapper`, remove duplicates while transferring
`timeInQueue`, and reset `stableTime` to 0. -/
def prepareUtterance (a : IAlertable) (st : QueueState) : UtteranceWrapper × QueueState :=
  let p := wrapAlertable a st
  let w : UtteranceWrapper :=
    { wid := p.2.nextWid, utterance := p.1, timeInQueue := .fin 0, stableTime := .fin 0 }
  let st₂ := { p.2 with nextWid := p.2.nextWid + 1 }
  let q := removeOthersAndUpdateUtteranceWrapper w st₂
  ({ q.1 with stableTime := .fin 0 }, q.2)

/-- The traversal of `prioritizeUtterances` towards the front of the
queue: `for ( let i = start; i >= 0; i-- )`, each step reading
`this.queue[ i ]` afresh and removing it when the seed utterance should
cancel it.  `sweep A u n st` performs the iterations `i = n-1, …, 0`. -/
def sweep (A : AnnouncerModel) (u : Utterance) : ℕ → QueueState → QueueState
  | 0, st => st
  | n + 1, st =>
    let st' :=
      match st.queue[n]? with
      | some other => if A.sc u other.utterance then removeUtterance other.utterance.id st else st
      | none => st
    sweep A u n st'

/-- Backwards look of `prioritizeUtterances` (lines 291-301): when the
seed was found in the queue, test `this.queue[ utteranceWrapperIndex + 1 ]`
— `idx` is the index captured *before* the towards-the-front removals —
and remove the seed when that entry should cancel it. -/
def backCheck (A : AnnouncerModel) (w : UtteranceWrapper) (idx : ℕ) (st : QueueState) :
    QueueState :=
  match st.queue[idx + 1]? with
  | some other =>
    if A.sc other.utterance w.utterance then removeUtterance w.utterance.id st else st
  | none => st

/-- Final step of `prioritizeUtterances` (lines 303-307): when the queue
is non-empty, let the announcer know the front utterance may have
changed. -/
def notifyFront (st : QueueState) : QueueState :=
  match st.queue with
  | [] => st
  | front :: _ => { st with notified := st.notified ++ [front.utterance.id] }

/-- Source `prioritizeUtterances` (lines 263-308): find the index of the seed;
when present, walk from just before it towards the front removing entries
the seed should cancel (`sweep`), then run the backwards look with the
index captured before the removals (`backCheck`); finally notify the
announcer of the front utterance when the queue is non-empty. -/
def prioritizeUtterances (A : AnnouncerModel) (w : UtteranceWrapper) (st : QueueState) :
    QueueState :=
  match st.queue.findIdx? (fun x => x.wid == w.wid) with
  | some idx => notifyFront (backCheck A w idx (sweep A w.utterance idx st))
  | none => notifyFront st

/-- Source `addPriorityListenerAndPrioritizeQueue` (lines 210-220): put the
in-queue priority listener of the utterance of the wrapper on the map, then
re-prioritize seeded at this wrapper. -/
def addPriorityListenerAndPrioritizeQueue (A : AnnouncerModel) (w : UtteranceWrapper)
    (st : QueueState) : QueueState :=
  let st₁ :=
    { st with
      listeners :=
        if st.listeners.contains w.utterance.id then st.listeners
        else st.listeners ++ [w.utterance.id] }
  prioritizeUtterances A w st₁

/-- Source `attemptToAnnounce` (lines 557-587): when the announcer is ready,
announce unless muted, gated by the predicate, or resolving to the empty
string; afterwards remove the wrapper from the queue if it is still
there.  When the announcer is not ready, do nothing. -/
def attemptToAnnounce (A : AnnouncerModel) (w : UtteranceWrapper) (st : QueueState) :
    QueueState :=
  if A.readyToAnnounce then
    let st₁ :=
      if st.muted = false ∧ w.utterance.predicateHolds = true ∧
          getAlertText A.respectResponseCollectorProperties w.utterance ≠ .str "" then
        { st with announced := st.announced ++ [w.utterance.id] }
      else st
    if st₁.queue.any (fun x => x.wid == w.wid) then removeUtterance w.utterance.id st₁ else st₁
  else st

/-- Source `announceImmediately` (lines 524-555): no-op when not initialized and
enabled; de-duplicate via `prepareUtterance`, force the timing variables
to `Infinity`, unshift to the front, add the priority listener /
prioritize, and, when the wrapper survived prioritization, attempt to
announce synchronously. -/
def announceImmediately (A : AnnouncerModel) (a : IAlertable) (st : QueueState) : QueueState :=
  if st.enabled && st.initialized then
    let p := prepareUtterance a st
    let w' := { p.1 with stableTime := QTime.top, timeInQueue := QTime.top }
    let st₂ := { p.2 with queue := w' :: p.2.queue }
    let st₃ := addPriorityListenerAndPrioritizeQueue A w' st₂
    if st₃.queue.any (fun x => x.wid == w'.wid) then attemptToAnnounce A w' st₃ else st₃
  else st

/-- Source `addToBack` (lines 154-181): no-op when not initialized and enabled;
reroute through `announceImmediately` while the announcer requires
synchronous first speech; otherwise prepare the wrapper, push it, and add
the priority listener / prioritize. -/
def addToBack (A : AnnouncerModel) (a : IAlertable) (st : QueueState) : QueueState :=
  if st.enabled && st.initialized then
    if A.announceImmediatelyUntilSpeaking && !A.hasSpoken then
      announceImmediately A a st
    else
      let p := prepareUtterance a st
      let st₂ := { p.2 with queue := p.2.queue ++ [p.1] }
      addPriorityListenerAndPrioritizeQueue A p.1 st₂
  else st

/-- The eligibility test of `getNextUtterance` (lines 354-373): stable for
longer than `alertStableDelay`, or in the queue for longer than
`alertMaximumDelay`. -/
def readyToBeAnnounced (w : UtteranceWrapper) : Bool :=
  QTime.blt (.fin w.utterance.alertStableDelay) w.stableTime ||
    QTime.blt (.fin w.utterance.alertMaximumDelay) w.timeInQueue

/-- Source `getNextUtterance`: the first wrapper, front to back, that is ready to
be announced. -/
def getNextUtterance (st : QueueState) : Option UtteranceWrapper :=
  st.queue.find? readyToBeAnnounced

/-- Advance the timers of one wrapper by `dt` milliseconds. -/
def bumpWrapper (dtMs : ℚ) (w : UtteranceWrapper) : UtteranceWrapper :=
  { w with timeInQueue := w.timeInQueue.add dtMs, stableTime := w.stableTime.add dtMs }

/-- Source `stepQueue` (lines 480-504): no-op when disabled; convert `dt` to ms,
advance the timers of every entry, and attempt to announce the next ready
utterance if any.  (`announcer.step` performs no queue mutation within
this repository.) -/
def stepQueue (A : AnnouncerModel) (dt : ℚ) (st : QueueState) : QueueState :=
  if st.enabled then
    let dtMs := dt * 1000
    if st.queue.isEmpty then st
    else
      let st' := { st with queue := st.queue.map (bumpWrapper dtMs) }
      match getNextUtterance st' with
      | some w => attemptToAnnounce A w st'
      | none => st'
  else st

/-! Definitions supporting the individual claims: statements written from
the specification text (for refinement comparison against the source
translation above), and concrete instances used by witnesses and
counterexamples. -/

/-- Resolution table of the specification (claim C2 wording,
spec section 4.6), written from the spec text: on differing priorities
compare, on the same instance use `cancelSelf`, otherwise `cancelOther`. -/
def specShouldCancelProperty (uNew uCurrent : Utterance) : Prop :=
  (uCurrent.priority ≠ uNew.priority →
    speechSynthesisShouldUtteranceCancelOther uNew uCurrent =
      decide (uCurrent.priority < uNew.priority)) ∧
  (uCurrent.priority = uNew.priority → uCurrent.id = uNew.id →
    speechSynthesisShouldUtteranceCancelOther uNew uCurrent = uNew.cancelSelfOption.getD true) ∧
  (uCurrent.priority = uNew.priority → uCurrent.id ≠ uNew.id →
    speechSynthesisShouldUtteranceCancelOther uNew uCurrent = uNew.cancelOtherOption.getD true)

/-- Resolution table of claim C8 (spec section 4.9), written from the spec
text: null resolves to null, a string or number to itself, a function
alertable is called and resolution recurses on its result, a response
packet goes to the opaque collector, and a nested `Utterance` recurses on
the inner alert. -/
def specResolveNonUtterance (a : AlertableNonUtterance) (respect : Bool) : ResolvedResponse :=
  match a with
  | .resolved .null => .null
  | .resolved (.str s) => .str s
  | .resolved (.num q) => .num q
  | .thunk r =>
    match r with
    | .null => .null
    | .str s => .str s
    | .num q => .num q
  | .packet p => .str (collectPacket p respect)

/-- Top level of the claim C8 resolution table: a nested `Utterance`
recurses on its inner alert (which is itself not an `Utterance`). -/
def specAlertableResolution (a : IAlertable) (respect : Bool) : ResolvedResponse :=
  match a with
  | .utt u => specResolveNonUtterance u.alert respect
  | .raw r => specResolveNonUtterance r respect

/-- Step (b) of claim C3 as stated: after the step (a) removals have
compacted the queue, inspect the entry immediately behind the seed and
remove the seed when that entry should cancel it.  `l₁` / `l₂` are the
entries in front of / behind the seed, so after compaction the entry
immediately behind the seed is the head of `l₂`. -/
def claimedPrioritizedQueue (A : AnnouncerModel) (w : UtteranceWrapper)
    (l₁ l₂ : List UtteranceWrapper) : List UtteranceWrapper :=
  let F := l₁.filter (fun x => !(A.sc w.utterance x.utterance))
  match l₂ with
  | c :: _ => if A.sc c.utterance w.utterance then F ++ l₂ else F ++ w :: l₂
  | [] => F ++ w :: l₂

/-- Amended step (b) of claim C3: the inspected slot is index `i + 1` of
the compacted queue where `i` is the index the seed had *before* the
step (a) removals; the inspected entry is the one immediately behind the
seed only when step (a) removed nothing. -/
def amendedPrioritizedQueue (A : AnnouncerModel) (w : UtteranceWrapper)
    (l₁ l₂ : List UtteranceWrapper) : List UtteranceWrapper :=
  let F := l₁.filter (fun x => !(A.sc w.utterance x.utterance))
  let compacted := F ++ w :: l₂
  match compacted[l₁.length + 1]? with
  | some c =>
    if A.sc c.utterance w.utterance then
      compacted.filter (fun x => !(x.utterance.id == w.utterance.id))
    else compacted
  | none => compacted

/-- Adjacent-pair invariant in the direction claim C4 states it: the
earlier entry of each adjacent pair should not cancel the later one. -/
def adjacentNoCancelForward (A : AnnouncerModel) (q : List UtteranceWrapper) : Bool :=
  (q.zip q.tail).all (fun p => !(A.sc p.1.utterance p.2.utterance))

/-- Adjacent-pair invariant in the direction the code maintains: the later
entry of each adjacent pair should not cancel the earlier one. -/
def chainNoCancelBackward (A : AnnouncerModel) (q : List UtteranceWrapper) : Prop :=
  List.Chain' (fun x y => A.sc y.utterance x.utterance = false) q

/-- Quasi-transitivity of a cancel relation on pairwise distinct
utterances: if `s` cancels `e` and `c` cancels `s` then `c` cancels `e`.
Both announcer hooks of this repository satisfy it. -/
def scQuasiTransitive (sc : Utterance → Utterance → Bool) : Prop :=
  ∀ s e c : Utterance, s.id ≠ e.id → c.id ≠ s.id → c.id ≠ e.id →
    sc s e = true → sc c s = true → sc c e = true

/-- Claim C1, stated over the model: after `addToBack` or
`announceImmediately` the utterance has at most one queue entry; the
de-duplication step removes all prior entries, transfers the maximal prior
`timeInQueue` and resets `stableTime`; `announceImmediately` then
overrides both timers with infinity, while a (non-rerouted) `addToBack`
keeps them on the surviving entry. -/
def claimC1Statement (A : AnnouncerModel) (a : IAlertable) (st : QueueState) : Prop :=
  ((addToBack A a st).queue.countP (fun x => x.utterance.id == uidOfAlertable a st) ≤ 1) ∧
  ((announceImmediately A a st).queue.countP (fun x => x.utterance.id == uidOfAlertable a st) ≤ 1) ∧
  ((prepareUtterance a st).2.queue.filter
      (fun x => x.utterance.id == uidOfAlertable a st) = []) ∧
  ((prepareUtterance a st).1.stableTime = .fin 0) ∧
  ((st.queue.filter (fun x => x.utterance.id == uidOfAlertable a st)).map
      (fun x => x.timeInQueue) ≠ [] →
    (prepareUtterance a st).1.timeInQueue =
      joinMax ((st.queue.filter (fun x => x.utterance.id == uidOfAlertable a st)).map
        (fun x => x.timeInQueue))) ∧
  (∀ x ∈ (announceImmediately A a st).queue, x.utterance.id = uidOfAlertable a st →
    x.timeInQueue = .top ∧ x.stableTime = .top) ∧
  ((A.announceImmediatelyUntilSpeaking && !A.hasSpoken) = false →
    ∀ x ∈ (addToBack A a st).queue, x.utterance.id = uidOfAlertable a st →
      x.wid = (prepareUtterance a st).1.wid ∧
      x.stableTime = .fin 0 ∧
      ((st.queue.filter (fun y => y.utterance.id == uidOfAlertable a st)).map
          (fun y => y.timeInQueue) ≠ [] →
        x.timeInQueue =
          joinMax ((st.queue.filter (fun y => y.utterance.id == uidOfAlertable a st)).map
            (fun y => y.timeInQueue))))

/-- Claim C5, stated over the model: a tick of an enabled, non-empty queue
first advances both timers of every entry by `dt * 1000` ms, then attempts
exactly the first entry that is ready (stable beyond `alertStableDelay`,
or queued beyond `alertMaximumDelay`); no entry is attempted when none is
ready; and with `alertStableDelay = 0` a positive `dt` makes an entry
ready. -/
def claimC5Statement (A : AnnouncerModel) (dt : ℚ) (st : QueueState) : Prop :=
  (stepQueue A dt st =
    match getNextUtterance { st with queue := st.queue.map (bumpWrapper (dt * 1000)) } with
    | some w => attemptToAnnounce A w { st with queue := st.queue.map (bumpWrapper (dt * 1000)) }
    | none => { st with queue := st.queue.map (bumpWrapper (dt * 1000)) }) ∧
  (∀ w, getNextUtterance { st with queue := st.queue.map (bumpWrapper (dt * 1000)) } = some w →
    readyToBeAnnounced w = true ∧
    ∃ l₁ l₂, st.queue.map (bumpWrapper (dt * 1000)) = l₁ ++ w :: l₂ ∧
      ∀ x ∈ l₁, readyToBeAnnounced x = false) ∧
  (getNextUtterance { st with queue := st.queue.map (bumpWrapper (dt * 1000)) } = none →
    ∀ x ∈ st.queue.map (bumpWrapper (dt * 1000)), readyToBeAnnounced x = false) ∧
  (∀ w ∈ st.queue, 0 < dt → w.stableTime.nonneg → w.utterance.alertStableDelay = 0 →
    readyToBeAnnounced (bumpWrapper (dt * 1000) w) = true)

/-- Claim C6, stated over the model: with the announcer not ready an
attempt changes nothing; with the announcer ready but the queue muted, the
predicate false, or the text resolving to the empty string, nothing is
announced yet the entry leaves the queue. -/
def claimC6Statement (A : AnnouncerModel) (w : UtteranceWrapper) (st : QueueState) : Prop :=
  (A.readyToAnnounce = false → attemptToAnnounce A w st = st) ∧
  (A.readyToAnnounce = true → w ∈ st.queue →
    (st.muted = true ∨ w.utterance.predicateHolds = false ∨
      getAlertText A.respectResponseCollectorProperties w.utterance = .str "") →
    (attemptToAnnounce A w st).announced = st.announced ∧
    (attemptToAnnounce A w st).queue =
      st.queue.filter (fun x => !(x.utterance.id == w.utterance.id)))

/-- Claim C7, stated over the model: `announceImmediately` is a no-op on a
disabled queue; otherwise it de-duplicates, forces both timers of the new
front entry to infinity, keeps the in-queue priority subscription while
the entry is queued, leaves the surviving entry at the front when the
announcer is not ready, and announces synchronously when the announcer is
ready and the gates pass. -/
def claimC7Statement (A : AnnouncerModel) (a : IAlertable) (st : QueueState) : Prop :=
  (st.enabled = false → announceImmediately A a st = st) ∧
  (st.enabled = true →
    (∀ x ∈ (prepareUtterance a st).2.queue, x.utterance.id ≠ uidOfAlertable a st) ∧
    (∀ x ∈ (announceImmediately A a st).queue, x.utterance.id = uidOfAlertable a st →
      x.timeInQueue = .top ∧ x.stableTime = .top) ∧
    ((announceImmediately A a st).queue.any
        (fun x => x.wid == (prepareUtterance a st).1.wid) = true →
      uidOfAlertable a st ∈ (announceImmediately A a st).listeners) ∧
    (A.readyToAnnounce = false →
      (addPriorityListenerAndPrioritizeQueue A
          { (prepareUtterance a st).1 with stableTime := QTime.top, timeInQueue := QTime.top }
          { (prepareUtterance a st).2 with
            queue :=
              { (prepareUtterance a st).1 with
                stableTime := QTime.top, timeInQueue := QTime.top } ::
                (prepareUtterance a st).2.queue }).queue.any
          (fun x => x.wid == (prepareUtterance a st).1.wid) = true →
      ∃ rest, (announceImmediately A a st).queue =
        { (prepareUtterance a st).1 with
          stableTime := QTime.top, timeInQueue := QTime.top } :: rest) ∧
    (A.readyToAnnounce = true →
      (addPriorityListenerAndPrioritizeQueue A
          { (prepareUtterance a st).1 with stableTime := QTime.top, timeInQueue := QTime.top }
          { (prepareUtterance a st).2 with
            queue :=
              { (prepareUtterance a st).1 with
                stableTime := QTime.top, timeInQueue := QTime.top } ::
                (prepareUtterance a st).2.queue }).queue.any
          (fun x => x.wid == (prepareUtterance a st).1.wid) = true →
      st.muted = false → (prepareUtterance a st).1.utterance.predicateHolds = true →
      getAlertText A.respectResponseCollectorProperties
          (prepareUtterance a st).1.utterance ≠ .str "" →
      (announceImmediately A a st).announced = st.announced ++ [uidOfAlertable a st]))

/-- Claim C10, stated over the model: two successive `addToBack` calls
with the same raw string wrap it in two freshly constructed utterances
(consecutive ids from the allocation counter) and finish with two distinct
entries at the back of the queue, neither replacing the other. -/
def claimC10Statement (A : AnnouncerModel) (s : String) (st : QueueState) : Prop :=
  ∃ q w₁ w₂,
    (addToBack A (.raw (.resolved (.str s))) (addToBack A (.raw (.resolved (.str s))) st)).queue
      = q ++ [w₁, w₂] ∧
    w₁.utterance.id = st.nextUttId ∧ w₂.utterance.id = st.nextUttId + 1 ∧
    w₁.utterance.alert = .resolved (.str s) ∧ w₂.utterance.alert = .resolved (.str s)

/-! Concrete instances for witnesses and counterexamples. -/

/-- An announcer with the default (`Announcer.ts`) cancel hook and flags,
ready to announce. -/
def exAnnouncer : AnnouncerModel :=
  { sc := defaultShouldUtteranceCancelOther
    readyToAnnounce := true
    hasSpoken := true
    announceImmediatelyUntilSpeaking := false
    respectResponseCollectorProperties := true }

/-- The same announcer, not ready to announce. -/
def exAnnouncerNotReady : AnnouncerModel := { exAnnouncer with readyToAnnounce := false }

/-- A plain utterance with the given identity and priority. -/
def exUtterance (i : ℕ) (p : ℤ) : Utterance :=
  { freshUtterance i (.resolved (.str "x")) with priority := p }

/-- A queue entry with the given wrapper identity wrapping `exUtterance`. -/
def exWrapper (wi i : ℕ) (p : ℤ) : UtteranceWrapper :=
  { wid := wi, utterance := exUtterance i p, timeInQueue := .fin 0, stableTime := .fin 0 }

/-- An initialized, enabled, empty queue state. -/
def exEmptyState : QueueState :=
  { queue := [], listeners := [], muted := false, enabled := true, initialized := true
    nextUttId := 10, nextWid := 100, announced := [], notified := [] }

/-- The three-entry state of the claim C3 counterexample: priorities 0, 1,
2 from front to back, the middle entry being the seed. -/
def exStateC3 : QueueState :=
  { exEmptyState with
    queue := [exWrapper 50 1 0, exWrapper 51 2 1, exWrapper 52 3 2]
    listeners := [1, 2, 3] }

/-- The state on which the claim C4 counterexample runs the prioritisation
procedure: the queue just after `addToBack` pushed the priority-1 seed
behind a priority-2 entry and added its priority listener (the exact state
the second `addToBack` hands to `prioritizeUtterances`). -/
def exStateC4 : QueueState :=
  { exEmptyState with
    queue := [exWrapper 100 1 2, exWrapper 101 2 1]
    listeners := [1, 2]
    nextWid := 102
    notified := [1] }

/-! Structural lemmas: every mutating queue operation produces a record
update of its input state, and the operations that only remove entries
produce sublists of the input queue. -/

theorem removeUtterance_queue (uid : ℕ) (st : QueueState) :
    (removeUtterance uid st).queue =
      st.queue.filter (fun x => !(x.utterance.id == uid)) := rfl

theorem removeUtterance_shape (uid : ℕ) (st : QueueState) :
    ∃ ls, removeUtterance uid st =
      { st with queue := st.queue.filter (fun x => !(x.utterance.id == uid)),
                listeners := ls } :=
  ⟨_, rfl⟩

theorem sweep_zero (A : AnnouncerModel) (u : Utterance) (st : QueueState) :
    sweep A u 0 st = st := rfl

theorem sweep_succ (A : AnnouncerModel) (u : Utterance) (n : ℕ) (st : QueueState) :
    sweep A u (n + 1) st =
      sweep A u n
        (match st.queue[n]? with
         | some other =>
           if A.sc u other.utterance then removeUtterance other.utterance.id st else st
         | none => st) := rfl

theorem sweep_shape (A : AnnouncerModel) (u : Utterance) :
    ∀ (n : ℕ) (st : QueueState), ∃ q ls,
      sweep A u n st = { st with queue := q, listeners := ls } ∧ q.Sublist st.queue := by
  intro n
  induction n with
  | zero => intro st; exact ⟨st.queue, st.listeners, rfl, List.Sublist.refl _⟩
  | succ n ih =>
    intro st
    rw [sweep_succ]
    cases h : st.queue[n]? with
    | none => simpa using ih st
    | some other =>
      by_cases hsc : A.sc u other.utterance
      · simp only [hsc, if_true]
        obtain ⟨q, ls, heq, hsub⟩ := ih (removeUtterance other.utterance.id st)
        refine ⟨q, ls, heq, hsub.trans ?_⟩
        rw [removeUtterance_queue]
        exact List.filter_sublist _
      · simp only [hsc, if_false]
        exact ih st

theorem backCheck_shape (A : AnnouncerModel) (w : UtteranceWrapper) (idx : ℕ)
    (st : QueueState) :
    ∃ q ls, backCheck A w idx st = { st with queue := q, listeners := ls } ∧
      q.Sublist st.queue := by
  unfold backCheck
  cases h : st.queue[idx + 1]? with
  | none => exact ⟨st.queue, st.listeners, rfl, List.Sublist.refl _⟩
  | some other =>
    by_cases hsc : A.sc other.utterance w.utterance
    · simp only [hsc, if_true]
      exact ⟨_, _, rfl, List.filter_sublist _⟩
    · simp only [hsc, if_false]
      exact ⟨st.queue, st.listeners, rfl, List.Sublist.refl _⟩

theorem notifyFront_queue (st : QueueState) : (notifyFront st).queue = st.queue := by
  unfold notifyFront
  split <;> rfl

theorem notifyFront_shape (st : QueueState) :
    ∃ nf, notifyFront st = { st with notified := nf } := by
  unfold notifyFront
  split <;> exact ⟨_, rfl⟩

theorem notifyFront_notified (st : QueueState) :
    (notifyFront st).notified =
      st.notified ++
        (match st.queue with
         | [] => ([] : List ℕ)
         | front :: _ => [front.utterance.id]) := by
  unfold notifyFront
  cases h : st.queue with
  | nil => simp [h]
  | cons f r => simp [h]

theorem prioritizeUtterances_shape (A : AnnouncerModel) (w : UtteranceWrapper)
    (st : QueueState) :
    ∃ q ls nf,
      prioritizeUtterances A w st = { st with queue := q, listeners := ls, notified := nf } ∧
        q.Sublist st.queue := by
  unfold prioritizeUtterances
  cases hidx : st.queue.findIdx? (fun x => x.wid == w.wid) with
  | none =>
    obtain ⟨nf, hnf⟩ := notifyFront_shape st
    refine ⟨st.queue, st.listeners, nf, ?_, List.Sublist.refl _⟩
    show notifyFront st = _
    rw [hnf]
  | some idx =>
    obtain ⟨q₁, ls₁, heq₁, hsub₁⟩ := sweep_shape A w.utterance idx st
    obtain ⟨q₂, ls₂, heq₂, hsub₂⟩ := backCheck_shape A w idx (sweep A w.utterance idx st)
    obtain ⟨nf, hnf⟩ := notifyFront_shape (backCheck A w idx (sweep A w.utterance idx st))
    refine ⟨q₂, ls₂, nf, ?_, ?_⟩
    · show notifyFront (backCheck A w idx (sweep A w.utterance idx st)) = _
      rw [hnf, heq₂, heq₁]
    · rw [heq₁] at hsub₂
      exact hsub₂.trans hsub₁

theorem addPriorityListenerAndPrioritizeQueue_shape (A : AnnouncerModel)
    (w : UtteranceWrapper) (st : QueueState) :
    ∃ q ls nf,
      addPriorityListenerAndPrioritizeQueue A w st =
        { st with queue := q, listeners := ls, notified := nf } ∧ q.Sublist st.queue := by
  unfold addPriorityListenerAndPrioritizeQueue
  obtain ⟨q, ls, nf, heq, hsub⟩ :=
    prioritizeUtterances_shape A w
      { st with
        listeners :=
          if st.listeners.contains w.utterance.id then st.listeners
          else st.listeners ++ [w.utterance.id] }
  exact ⟨q, ls, nf, by rw [heq], hsub⟩

theorem attemptToAnnounce_shape (A : AnnouncerModel) (w : UtteranceWrapper)
    (st : QueueState) :
    ∃ q ls an,
      attemptToAnnounce A w st = { st with queue := q, listeners := ls, announced := an } ∧
        q.Sublist st.queue := by
  unfold attemptToAnnounce
  split
  · split
    · dsimp only
      split
      · exact ⟨_, _, _, rfl, List.filter_sublist _⟩
      · exact ⟨_, _, _, rfl, List.Sublist.refl _⟩
    · dsimp only
      split
      · exact ⟨_, _, _, rfl, List.filter_sublist _⟩
      · exact ⟨_, _, _, rfl, List.Sublist.refl _⟩
  · exact ⟨_, _, _, rfl, List.Sublist.refl _⟩

/-! Characterization lemmas for the towards-the-front sweep and for
`prioritizeUtterances`. -/

theorem sweep_queue_filter (A : AnnouncerModel) (u : Utterance) :
    ∀ (n : ℕ) (st : QueueState), ∃ keep : UtteranceWrapper → Bool,
      (sweep A u n st).queue = st.queue.filter keep ∧
      ∀ x ∈ st.queue, keep x = false →
        ∃ y ∈ st.queue, y.utterance.id = x.utterance.id ∧ A.sc u y.utterance = true := by
  intro n
  induction n with
  | zero =>
    intro st
    exact ⟨fun _ => true, by simp [sweep_zero], by simp⟩
  | succ n ih =>
    intro st
    rw [sweep_succ]
    cases h : st.queue[n]? with
    | none => simpa using ih st
    | some other =>
      by_cases hsc : A.sc u other.utterance
      · simp only [hsc, if_true]
        obtain ⟨keep, hq, hprop⟩ := ih (removeUtterance other.utterance.id st)
        refine ⟨fun x => keep x && !(x.utterance.id == other.utterance.id), ?_, ?_⟩
        · rw [hq, removeUtterance_queue, List.filter_filter]
        · intro x hx hkx
          by_cases hbe : x.utterance.id = other.utterance.id
          · exact ⟨other, List.getElem?_mem h, hbe.symm, hsc⟩
          · have hk : keep x = false := by
              rcases Bool.and_eq_false_iff.mp hkx with hk | hk
              · exact hk
              · exact absurd (by simpa using hk) hbe
            have hxmem : x ∈ (removeUtterance other.utterance.id st).queue := by
              rw [removeUtterance_queue, List.mem_filter]
              exact ⟨hx, by simpa using hbe⟩
            obtain ⟨y, hy, hyid, hysc⟩ := hprop x hxmem hk
            have hymem : y ∈ st.queue := by
              have hy2 := hy
              rw [removeUtterance_queue] at hy2
              exact (List.mem_filter.mp hy2).1
            exact ⟨y, hymem, hyid, hysc⟩
      · simp only [hsc, if_false]
        exact ih st

theorem filter_ne_id_eq_self {uid : ℕ} {m : List UtteranceWrapper}
    (h : ∀ x ∈ m, x.utterance.id ≠ uid) :
    m.filter (fun x => !(x.utterance.id == uid)) = m :=
  List.filter_eq_self.mpr (fun a ha => by simpa using h a ha)

theorem sweep_queue_append (A : AnnouncerModel) (u : Utterance) (l₁ : List UtteranceWrapper) :
    ∀ (rest : List UtteranceWrapper) (st : QueueState),
      st.queue = l₁ ++ rest →
      ((l₁ ++ rest).map (fun x => x.utterance.id)).Nodup →
      (sweep A u l₁.length st).queue =
        l₁.filter (fun x => !(A.sc u x.utterance)) ++ rest := by
  induction l₁ using List.reverseRecOn with
  | nil =>
    intro rest st hq _
    simpa [sweep_zero] using hq
  | append_singleton l e ih =>
    intro rest st hq hnd
    have hq' : st.queue = l ++ e :: rest := by simpa using hq
    have hnd' : ((l ++ e :: rest).map (fun x => x.utterance.id)).Nodup := by
      simpa using hnd
    have hmid : (e.utterance.id ::
        (l.map (fun x => x.utterance.id) ++ rest.map (fun x => x.utterance.id))).Nodup := by
      have : ((l.map (fun x => x.utterance.id)) ++ e.utterance.id ::
          (rest.map (fun x => x.utterance.id))).Nodup := by simpa using hnd'
      exact List.nodup_middle.mp this
    have hnotmem := (List.nodup_cons.mp hmid).1
    have hlen : (l ++ [e]).length = l.length + 1 := by simp
    rw [hlen, sweep_succ]
    have hget : st.queue[l.length]? = some e := by
      rw [hq']
      rw [List.getElem?_append_right (le_refl _)]
      simp
    rw [hget]
    dsimp only
    by_cases hsc : A.sc u e.utterance
    · simp only [hsc, if_true]
      have hrmq : (removeUtterance e.utterance.id st).queue = l ++ rest := by
        rw [removeUtterance_queue, hq', List.filter_append, List.filter_cons]
        have he : (!(e.utterance.id == e.utterance.id)) = false := by simp
        rw [he]
        simp only [Bool.false_eq_true, if_false]
        rw [filter_ne_id_eq_self, filter_ne_id_eq_self]
        · intro x hx hxe
          exact hnotmem (List.mem_append_right _ (List.mem_map.mpr ⟨x, hx, hxe⟩))
        · intro x hx hxe
          exact hnotmem (List.mem_append_left _ (List.mem_map.mpr ⟨x, hx, hxe⟩))
      have hndrec : ((l ++ rest).map (fun x => x.utterance.id)).Nodup := by
        have hsub : (l ++ rest).Sublist (l ++ e :: rest) :=
          List.Sublist.append (List.Sublist.refl l) (List.sublist_cons_self e rest)
        exact ((hsub.map (fun x => x.utterance.id)).nodup hnd')
      have := ih rest (removeUtterance e.utterance.id st) hrmq hndrec
      rw [this, List.filter_append, List.filter_cons]
      simp [hsc]
    · rw [if_neg hsc]
      have := ih (e :: rest) st hq' hnd'
      rw [this, List.filter_append, List.filter_cons]
      simp [hsc]

theorem findIdx?_prefix_aux {α : Type} (p : α → Bool) (x : α) (l₂ : List α) :
    ∀ (l₁ : List α) (i : ℕ), (∀ y ∈ l₁, p y = false) → p x = true →
      List.findIdx? p (l₁ ++ x :: l₂) i = some (i + l₁.length) := by
  intro l₁
  induction l₁ with
  | nil =>
    intro i _ hp
    simp [List.findIdx?_cons, hp]
  | cons a l ih =>
    intro i h hp
    have ha : p a = false := h a (List.mem_cons_self a l)
    rw [List.cons_append, List.findIdx?_cons, ha]
    simp only [Bool.false_eq_true, if_false]
    rw [ih (i + 1) (fun y hy => h y (List.mem_cons_of_mem a hy)) hp]
    congr 1
    simp
    omega

theorem findIdx?_prefix {α : Type} (p : α → Bool) (l₁ : List α) (x : α) (l₂ : List α)
    (h : ∀ y ∈ l₁, p y = false) (hp : p x = true) :
    List.findIdx? p (l₁ ++ x :: l₂) = some l₁.length := by
  have := findIdx?_prefix_aux p x l₂ l₁ 0 h hp
  simpa using this

/-- Ids occurring in a queue decomposed around a seed: the seed id occurs
neither in front nor behind, and front and behind ids are disjoint. -/
theorem nodup_decomp {w : UtteranceWrapper} {l₁ l₂ : List UtteranceWrapper}
    (hnd : ((l₁ ++ w :: l₂).map (fun x => x.utterance.id)).Nodup) :
    (∀ x ∈ l₁, x.utterance.id ≠ w.utterance.id) ∧
    (∀ x ∈ l₂, x.utterance.id ≠ w.utterance.id) ∧
    (∀ x ∈ l₁, ∀ y ∈ l₂, x.utterance.id ≠ y.utterance.id) := by
  have hnd' : ((l₁.map (fun x => x.utterance.id)) ++ w.utterance.id ::
      (l₂.map (fun x => x.utterance.id))).Nodup := by simpa using hnd
  have hmid := List.nodup_middle.mp hnd'
  have hnotmem := (List.nodup_cons.mp hmid).1
  have happ := (List.nodup_cons.mp hmid).2
  obtain ⟨-, -, hdisj⟩ := List.nodup_append.mp happ
  refine ⟨?_, ?_, ?_⟩
  · intro x hx hxw
    exact hnotmem (List.mem_append_left _ (List.mem_map.mpr ⟨x, hx, hxw⟩))
  · intro x hx hxw
    exact hnotmem (List.mem_append_right _ (List.mem_map.mpr ⟨x, hx, hxw⟩))
  · intro x hx y hy hxy
    exact hdisj (List.mem_map.mpr ⟨x, hx, rfl⟩) (List.mem_map.mpr ⟨y, hy, hxy.symm⟩)

theorem prioritizeUtterances_queue_eq (A : AnnouncerModel) (w : UtteranceWrapper)
    (l₁ l₂ : List UtteranceWrapper) (st : QueueState)
    (hq : st.queue = l₁ ++ w :: l₂)
    (hnd : ((l₁ ++ w :: l₂).map (fun x => x.utterance.id)).Nodup)
    (hw : ∀ x ∈ l₁, (x.wid == w.wid) = false) :
    (prioritizeUtterances A w st).queue = amendedPrioritizedQueue A w l₁ l₂ := by
  obtain ⟨hid₁, hid₂, -⟩ := nodup_decomp hnd
  have hfind : st.queue.findIdx? (fun x => x.wid == w.wid) = some l₁.length := by
    rw [hq]
    exact findIdx?_prefix _ l₁ w l₂ hw (by simp)
  unfold prioritizeUtterances
  rw [hfind]
  dsimp only
  rw [notifyFront_queue]
  have hsweep : (sweep A w.utterance l₁.length st).queue =
      l₁.filter (fun x => !(A.sc w.utterance x.utterance)) ++ w :: l₂ :=
    sweep_queue_append A w.utterance l₁ (w :: l₂) st hq hnd
  unfold backCheck amendedPrioritizedQueue
  dsimp only
  rw [hsweep]
  cases hc : (l₁.filter (fun x => !(A.sc w.utterance x.utterance)) ++ w :: l₂)[l₁.length + 1]? with
  | none => exact hsweep
  | some c =>
    dsimp only
    by_cases hsc : A.sc c.utterance w.utterance
    · rw [if_pos hsc, if_pos hsc, removeUtterance_queue, hsweep]
    · rw [if_neg hsc, if_neg hsc]
      exact hsweep

theorem prioritizeUtterances_notified (A : AnnouncerModel) (w : UtteranceWrapper)
    (st : QueueState) :
    (prioritizeUtterances A w st).notified =
      st.notified ++
        (match (prioritizeUtterances A w st).queue with
         | [] => ([] : List ℕ)
         | front :: _ => [front.utterance.id]) := by
  unfold prioritizeUtterances
  cases hidx : st.queue.findIdx? (fun x => x.wid == w.wid) with
  | none =>
    dsimp only
    rw [notifyFront_notified, notifyFront_queue]
  | some idx =>
    dsimp only
    obtain ⟨q₁, ls₁, heq₁, -⟩ := sweep_shape A w.utterance idx st
    obtain ⟨q₂, ls₂, heq₂, -⟩ := backCheck_shape A w idx (sweep A w.utterance idx st)
    rw [notifyFront_notified, notifyFront_queue, heq₂, heq₁]

theorem find?_split {α : Type} (p : α → Bool) :
    ∀ (l : List α) (a : α), l.find? p = some a →
      ∃ l₁ l₂, l = l₁ ++ a :: l₂ ∧ ∀ x ∈ l₁, p x = false := by
  intro l
  induction l with
  | nil => intro a h; simp [List.find?] at h
  | cons b t ih =>
    intro a h
    by_cases hb : p b = true
    · rw [List.find?_cons_of_pos _ hb] at h
      cases h
      exact ⟨[], t, rfl, by simp⟩
    · rw [List.find?_cons_of_neg _ hb] at h
      obtain ⟨l₁, l₂, heq, hl⟩ := ih a h
      refine ⟨b :: l₁, l₂, by rw [heq, List.cons_append], ?_⟩
      intro x hx
      rcases List.mem_cons.mp hx with rfl | hx
      · exact Bool.not_eq_true _ ▸ Bool.of_not_eq_true hb
      · exact hl x hx

/-! Lemmas about `prepareUtterance`. -/

theorem wrapAlertable_fst_id (a : IAlertable) (st : QueueState) :
    (wrapAlertable a st).1.id = uidOfAlertable a st := by
  cases a <;> rfl

theorem prepareUtterance_snd (a : IAlertable) (st : QueueState) :
    (prepareUtterance a st).2 =
      { st with
        queue := st.queue.filter (fun x => !(x.utterance.id == uidOfAlertable a st)),
        listeners :=
          (st.queue.filter (fun x => x.utterance.id == uidOfAlertable a st)).foldl
            (fun ls _ => ls.erase (uidOfAlertable a st)) st.listeners,
        nextUttId := (wrapAlertable a st).2.nextUttId,
        nextWid := st.nextWid + 1 } := by
  cases a <;> rfl

theorem prepareUtterance_fst (a : IAlertable) (st : QueueState) :
    (prepareUtterance a st).1 =
      { wid := st.nextWid,
        utterance := (wrapAlertable a st).1,
        timeInQueue :=
          (if ((st.queue.filter (fun x => x.utterance.id == uidOfAlertable a st)).map
              (fun x => x.timeInQueue)).isEmpty
           then .fin 0
           else joinMax ((st.queue.filter (fun x => x.utterance.id == uidOfAlertable a st)).map
              (fun x => x.timeInQueue))),
        stableTime := .fin 0 } := by
  cases a <;>
    (simp only [prepareUtterance, removeOthersAndUpdateUtteranceWrapper, wrapAlertable,
       uidOfAlertable, freshUtterance]
     split <;> rfl)

/-! The claims. -/

/-- Claim C2: for the speech-synthesis announcer and all utterances `new`
and `current`, `shouldUtteranceCancelOther(new, current)` returns
`priority(current) < priority(new)` when the two priorities differ;
otherwise the `cancelSelf` flag of the announcer options of `new`
(default true) when `new` and `current` are the same instance; otherwise
its `cancelOther` flag (default true). -/
theorem claim_C2_speech_should_cancel (uNew uCurrent : Utterance) :
    specShouldCancelProperty uNew uCurrent := by
  unfold specShouldCancelProperty speechSynthesisShouldUtteranceCancelOther
  refine ⟨?_, ?_, ?_⟩
  · intro hne
    rw [if_pos hne]
  · intro hpe hid
    rw [if_neg (by simp [hpe]), if_pos hid]
  · intro hpe hid
    rw [if_neg (by simp [hpe]), if_neg hid]

/-- Witness for claim C2 at a concrete pair of utterances with differing
priorities. -/
theorem claim_C2_witness :
    speechSynthesisShouldUtteranceCancelOther (exUtterance 1 2) (exUtterance 2 1) = true := by
  have h := (claim_C2_speech_should_cancel (exUtterance 1 2) (exUtterance 2 1)).1 (by decide)
  rw [h]
  decide

theorem alertableNonUtteranceToText_eq_spec (r : AlertableNonUtterance) (respect : Bool) :
    alertableNonUtteranceToText r respect = specResolveNonUtterance r respect := by
  cases r with
  | resolved v => cases v <;> rfl
  | thunk v => cases v <;> rfl
  | packet p => rfl

/-- Claim C8: resolution of an alertable to text is a pure function
following the resolution table: null resolves to null, a string or number
to itself, a function alertable is called with resolution recursing on its
result, and a nested utterance resolves by recursing on its inner
alert. -/
theorem claim_C8_alert_resolution (a : IAlertable) (respect : Bool) :
    alertableToText a respect = specAlertableResolution a respect := by
  cases a with
  | utt u =>
    exact alertableNonUtteranceToText_eq_spec u.alert respect
  | raw r =>
    exact alertableNonUtteranceToText_eq_spec r respect

/-- Claim C9: removing an utterance that is not in the queue is a silent
no-op in a production build; the queue and the priority-listener map are
unchanged. -/
theorem claim_C9_remove_absent_noop (u : Utterance) (st : QueueState)
    (h : ∀ x ∈ st.queue, x.utterance.id ≠ u.id) :
    removeUtterance u.id st = st := by
  unfold removeUtterance
  have h2 : st.queue.filter (fun x => x.utterance.id == u.id) = [] :=
    List.filter_eq_nil_iff.mpr (fun a ha => by simpa using h a ha)
  rw [filter_ne_id_eq_self h, h2]
  rfl

/-- Witness for claim C9: removing an utterance whose id does not occur in
a concrete three-entry queue changes nothing. -/
theorem claim_C9_witness : removeUtterance (exUtterance 5 1).id exStateC3 = exStateC3 :=
  claim_C9_remove_absent_noop (exUtterance 5 1) exStateC3 (by decide)

/-- Claim C6: whenever attempt-to-announce runs on an entry while the
announcer is ready, a muted queue, a false predicate or empty resolved
text suppresses the announcement yet removes the entry; when the announcer
is not ready the state is unchanged. -/
theorem claim_C6_attempt_gating (A : AnnouncerModel) (w : UtteranceWrapper)
    (st : QueueState) : claimC6Statement A w st := by
  constructor
  · intro hr
    unfold attemptToAnnounce
    rw [if_neg (by simp [hr])]
  · intro hr hw hsupp
    unfold attemptToAnnounce
    rw [if_pos hr]
    dsimp only
    have hcond : ¬(st.muted = false ∧ w.utterance.predicateHolds = true ∧
        getAlertText A.respectResponseCollectorProperties w.utterance ≠ .str "") := by
      rcases hsupp with h | h | h
      · intro hc
        rw [h] at hc
        exact absurd hc.1 (by simp)
      · intro hc
        rw [h] at hc
        exact absurd hc.2.1 (by simp)
      · intro hc
        exact hc.2.2 h
    rw [if_neg hcond]
    have hany : st.queue.any (fun x => x.wid == w.wid) = true :=
      List.any_eq_true.mpr ⟨w, hw, by simp⟩
    rw [if_pos hany]
    exact ⟨rfl, rfl⟩

/-- Witness for claim C6: on a muted concrete queue the attempt announces
nothing and removes the entry. -/
theorem claim_C6_witness :
    (attemptToAnnounce exAnnouncer (exWrapper 50 1 0)
        { exStateC3 with muted := true }).announced =
      ({ exStateC3 with muted := true } : QueueState).announced ∧
    (attemptToAnnounce exAnnouncer (exWrapper 50 1 0)
        { exStateC3 with muted := true }).queue =
      ({ exStateC3 with muted := true } : QueueState).queue.filter
        (fun x => !(x.utterance.id == (exWrapper 50 1 0).utterance.id)) :=
  (claim_C6_attempt_gating exAnnouncer (exWrapper 50 1 0)
    { exStateC3 with muted := true }).2 rfl (List.mem_cons_self _ _) (Or.inl rfl)

/-- Claim C5: a tick of an enabled, non-empty queue adds `dt * 1000` ms to
both timers of every entry, then attempts exactly the first entry whose
`stableTime` strictly exceeds its `alertStableDelay` or whose
`timeInQueue` strictly exceeds its `alertMaximumDelay`, attempting none
when no entry qualifies; and an entry with `alertStableDelay = 0` becomes
eligible on the next tick for any positive `dt`. -/
theorem claim_C5_step_selection (A : AnnouncerModel) (dt : ℚ) (st : QueueState)
    (hen : st.enabled = true) (hne : st.queue ≠ []) :
    claimC5Statement A dt st := by
  refine ⟨?_, ?_, ?_, ?_⟩
  · unfold stepQueue
    rw [if_pos hen]
    dsimp only
    rw [if_neg (by simpa [List.isEmpty_iff] using hne)]
  · intro w hw
    unfold getNextUtterance at hw
    refine ⟨List.find?_some hw, ?_⟩
    obtain ⟨l₁, l₂, heq, hl⟩ := find?_split _ _ w hw
    exact ⟨l₁, l₂, heq, hl⟩
  · intro hnone x hx
    unfold getNextUtterance at hnone
    have := List.find?_eq_none.mp hnone x hx
    simpa using this
  · intro w hw hdt hnn hdelay
    have h1 : QTime.blt (.fin (bumpWrapper (dt * 1000) w).utterance.alertStableDelay)
        ((bumpWrapper (dt * 1000) w).stableTime) = true := by
      unfold bumpWrapper
      dsimp only
      rw [hdelay]
      cases hstab : w.stableTime with
      | top => rfl
      | fin q =>
        have hq : (0 : ℚ) ≤ q := by
          rw [hstab] at hnn
          exact hnn
        unfold QTime.add QTime.blt
        rw [decide_eq_true_eq]
        have hpos : (0 : ℚ) < dt * 1000 := mul_pos hdt (by norm_num)
        exact add_pos_of_nonneg_of_pos hq hpos
    unfold readyToBeAnnounced
    rw [h1]
    simp

/-- Witness for claim C5 at a concrete enabled three-entry queue and a
one-second tick. -/
theorem claim_C5_witness : claimC5Statement exAnnouncer 1 exStateC3 :=
  claim_C5_step_selection exAnnouncer 1 exStateC3 rfl (by decide)

/-- Counterexample to claim C3: on the concrete queue
`[priority 0, seed at priority 1, priority 2]` the entry immediately
behind the seed after the step (a) compaction should cancel the seed, yet
the procedure leaves the seed in place (it inspects the stale slot
`i + 1 = 3`, which is out of range after the removal in front), while the
procedure the claim describes would have removed the seed. -/
theorem claim_C3_counterexample :
    exStateC3.queue = [exWrapper 50 1 0] ++ exWrapper 51 2 1 :: [exWrapper 52 3 2] ∧
    exAnnouncer.sc (exUtterance 3 2) (exUtterance 2 1) = true ∧
    (prioritizeUtterances exAnnouncer (exWrapper 51 2 1) exStateC3).queue.map
      (fun x => x.utterance.id) = [2, 3] ∧
    (claimedPrioritizedQueue exAnnouncer (exWrapper 51 2 1) [exWrapper 50 1 0]
      [exWrapper 52 3 2]).map (fun x => x.utterance.id) = [3] :=
  ⟨rfl, by decide, by decide, by decide⟩

/-- Claim C3 (amended): for a seed at index `i` of a duplicate-free queue,
the procedure (a) removes each older entry the seed should cancel walking
towards the front, (b) inspects the slot at index `i + 1` of the compacted
queue — `i` captured *before* the removals, so this is the entry
immediately behind the seed only when step (a) removed nothing — removing
the seed when that entry should cancel it, and (c) notifies the announcer
with the front utterance when the resulting queue is non-empty. -/
theorem claim_C3_amended (A : AnnouncerModel) (w : UtteranceWrapper)
    (l₁ l₂ : List UtteranceWrapper) (st : QueueState)
    (hq : st.queue = l₁ ++ w :: l₂)
    (hnd : ((l₁ ++ w :: l₂).map (fun x => x.utterance.id)).Nodup)
    (hw : ∀ x ∈ l₁, (x.wid == w.wid) = false) :
    (prioritizeUtterances A w st).queue = amendedPrioritizedQueue A w l₁ l₂ ∧
    (prioritizeUtterances A w st).notified =
      st.notified ++
        (match (prioritizeUtterances A w st).queue with
         | [] => ([] : List ℕ)
         | front :: _ => [front.utterance.id]) :=
  ⟨prioritizeUtterances_queue_eq A w l₁ l₂ st hq hnd hw,
   prioritizeUtterances_notified A w st⟩

/-- Witness for the amended claim C3 at the concrete counterexample
queue. -/
theorem claim_C3_witness :
    (prioritizeUtterances exAnnouncer (exWrapper 51 2 1) exStateC3).queue =
      amendedPrioritizedQueue exAnnouncer (exWrapper 51 2 1) [exWrapper 50 1 0]
        [exWrapper 52 3 2] ∧
    (prioritizeUtterances exAnnouncer (exWrapper 51 2 1) exStateC3).notified =
      exStateC3.notified ++
        (match (prioritizeUtterances exAnnouncer (exWrapper 51 2 1) exStateC3).queue with
         | [] => ([] : List ℕ)
         | front :: _ => [front.utterance.id]) :=
  claim_C3_amended exAnnouncer (exWrapper 51 2 1) [exWrapper 50 1 0] [exWrapper 52 3 2]
    exStateC3 rfl (by decide) (by decide)

/-- The default announcer cancel hook is quasi-transitive. -/
theorem defaultShouldCancel_quasiTransitive :
    scQuasiTransitive defaultShouldUtteranceCancelOther := by
  intro s e c _ _ _ h1 h2
  unfold defaultShouldUtteranceCancelOther at h1 h2 ⊢
  rw [decide_eq_true_eq] at h1 h2
  rw [decide_eq_true_eq]
  exact lt_trans h1 h2

/-- The speech-synthesis cancel hook is quasi-transitive on pairwise
distinct utterances. -/
theorem speechShouldCancel_quasiTransitive :
    scQuasiTransitive speechSynthesisShouldUtteranceCancelOther := by
  intro s e c hse hcs hce h1 h2
  unfold speechSynthesisShouldUtteranceCancelOther at h1 h2 ⊢
  dsimp only at h1 h2 ⊢
  by_cases hes : e.priority = s.priority
  · rw [if_neg (by simp [hes])] at h1
    by_cases hsc' : s.priority = c.priority
    · rw [if_neg (by simp [hsc'])] at h2
      rw [if_neg (fun h => hcs h.symm)] at h2
      have hec : e.priority = c.priority := hes.trans hsc'
      rw [if_neg (by simp [hec])]
      rw [if_neg (fun h => hce h.symm)]
      exact h2
    · rw [if_pos hsc', decide_eq_true_eq] at h2
      have hlt : e.priority < c.priority := by rw [hes]; exact h2
      rw [if_pos (ne_of_lt hlt), decide_eq_true_eq]
      exact hlt
  · rw [if_pos hes, decide_eq_true_eq] at h1
    by_cases hsc' : s.priority = c.priority
    · rw [if_neg (by simp [hsc'])] at h2
      have hlt : e.priority < c.priority := by rw [← hsc']; exact h1
      rw [if_pos (ne_of_lt hlt), decide_eq_true_eq]
      exact hlt
    · rw [if_pos hsc', decide_eq_true_eq] at h2
      have hlt : e.priority < c.priority := lt_trans h1 h2
      rw [if_pos (ne_of_lt hlt), decide_eq_true_eq]
      exact hlt

/-- Counterexample to claim C4: `addToBack` of a priority-2 utterance
followed by `addToBack` of a priority-1 utterance ends with the
prioritisation procedure, and the resulting adjacent pair has the earlier
entry cancelling the later one — the direction the claim forbids. -/
theorem claim_C4_counterexample :
    (addToBack exAnnouncer (.utt (exUtterance 2 1))
        (addToBack exAnnouncer (.utt (exUtterance 1 2)) exEmptyState) =
      prioritizeUtterances exAnnouncer (exWrapper 101 2 1) exStateC4) ∧
    adjacentNoCancelForward exAnnouncer
      (prioritizeUtterances exAnnouncer (exWrapper 101 2 1) exStateC4).queue = false :=
  ⟨rfl, by decide⟩

/-- Claim C4 (amended): immediately after a prioritisation run seeded at
an entry of a duplicate-free queue whose pairs not involving the seed
already satisfied the invariant, every adjacent pair (A earlier, B later)
satisfies that B should *not* cancel A — the direction of the claim is
reversed, and the invariant is relative to the pre-run state.  The
cancel-relation hypothesis (quasi-transitivity) holds for both announcers
of the repository. -/
theorem claim_C4_amended (A : AnnouncerModel) (w : UtteranceWrapper)
    (l₁ l₂ : List UtteranceWrapper) (st : QueueState)
    (hq : st.queue = l₁ ++ w :: l₂)
    (hnd : ((l₁ ++ w :: l₂).map (fun x => x.utterance.id)).Nodup)
    (hw : ∀ x ∈ l₁, (x.wid == w.wid) = false)
    (hqt : scQuasiTransitive A.sc)
    (hpre : List.Pairwise
      (fun x y => x.utterance.id ≠ w.utterance.id → y.utterance.id ≠ w.utterance.id →
        A.sc y.utterance x.utterance = false) (l₁ ++ w :: l₂)) :
    chainNoCancelBackward A (prioritizeUtterances A w st).queue := by
  unfold chainNoCancelBackward
  rw [prioritizeUtterances_queue_eq A w l₁ l₂ st hq hnd hw]
  obtain ⟨hid₁, hid₂, hid₁₂⟩ := nodup_decomp hnd
  have hsub12 : (l₁ ++ l₂).Sublist (l₁ ++ w :: l₂) :=
    List.Sublist.append (List.Sublist.refl _) (List.sublist_cons_self _ _)
  have hpw : List.Pairwise
      (fun x y : UtteranceWrapper => A.sc y.utterance x.utterance = false) (l₁ ++ l₂) := by
    refine List.Pairwise.imp_of_mem ?_ (List.Pairwise.sublist hsub12 hpre)
    intro a b ha hb hcond
    have hida : a.utterance.id ≠ w.utterance.id := by
      rcases List.mem_append.mp ha with h | h
      exacts [hid₁ a h, hid₂ a h]
    have hidb : b.utterance.id ≠ w.utterance.id := by
      rcases List.mem_append.mp hb with h | h
      exacts [hid₁ b h, hid₂ b h]
    exact hcond hida hidb
  have hFsub : (l₁.filter (fun x => !(A.sc w.utterance x.utterance))).Sublist l₁ :=
    List.filter_sublist _
  have hFmem : ∀ x ∈ l₁.filter (fun x => !(A.sc w.utterance x.utterance)), x ∈ l₁ :=
    fun x hx => (List.mem_filter.mp hx).1
  have hFkeep : ∀ x ∈ l₁.filter (fun x => !(A.sc w.utterance x.utterance)),
      A.sc w.utterance x.utterance = false := by
    intro x hx
    have := (List.mem_filter.mp hx).2
    simpa using this
  have hchainF : List.Chain' (fun x y : UtteranceWrapper => A.sc y.utterance x.utterance = false)
      (l₁.filter (fun x => !(A.sc w.utterance x.utterance))) :=
    (List.Pairwise.sublist (hFsub.trans (List.sublist_append_left l₁ l₂)) hpw).chain'
  have hchainl₂ : List.Chain'
      (fun x y : UtteranceWrapper => A.sc y.utterance x.utterance = false) l₂ :=
    (List.Pairwise.sublist (List.sublist_append_right l₁ l₂) hpw).chain'
  -- When the sweep removed something in front, nothing behind the seed cancels it.
  have hql : l₁.filter (fun x => !(A.sc w.utterance x.utterance)) ≠ l₁ →
      ∀ y ∈ l₂, A.sc y.utterance w.utterance = false := by
    intro hFne y hy
    have hex : ∃ e ∈ l₁, A.sc w.utterance e.utterance = true := by
      by_contra hall
      push_neg at hall
      refine hFne (List.filter_eq_self.mpr ?_)
      intro a ha
      have := hall a ha
      simp only [Bool.not_eq_true] at this
      simp [this]
    obtain ⟨e, he, hsce⟩ := hex
    cases hcy : A.sc y.utterance w.utterance with
    | false => rfl
    | true =>
      exfalso
      have hsye : A.sc y.utterance e.utterance = true :=
        hqt w.utterance e.utterance y.utterance
          (fun h => hid₁ e he h.symm) (hid₂ y hy)
          (fun h => hid₁₂ e he y hy h.symm) hsce hcy
      have hfalse : A.sc y.utterance e.utterance = false :=
        (List.pairwise_append.mp hpw).2.2 e he y hy
      rw [hfalse] at hsye
      exact absurd hsye (by simp)
  -- Assembling the invariant when the seed survives.
  have hassemble :
      (∀ y ∈ l₂.head?, A.sc y.utterance w.utterance = false) →
      List.Chain' (fun x y : UtteranceWrapper => A.sc y.utterance x.utterance = false)
        (l₁.filter (fun x => !(A.sc w.utterance x.utterance)) ++ w :: l₂) := by
    intro hhead
    refine List.chain'_append.mpr ⟨hchainF, ?_, ?_⟩
    · exact List.chain'_cons'.mpr ⟨hhead, hchainl₂⟩
    · intro x hx y hy
      have hyw : w = y := by simpa using hy
      rw [← hyw]
      obtain ⟨hne', hxeq⟩ := List.mem_getLast?_eq_getLast hx
      rw [hxeq]
      exact hFkeep _ (List.getLast_mem hne')
  -- The queue after removal of the seed.
  have hqrm : (l₁.filter (fun x => !(A.sc w.utterance x.utterance)) ++ w :: l₂).filter
      (fun x => !(x.utterance.id == w.utterance.id)) =
      l₁.filter (fun x => !(A.sc w.utterance x.utterance)) ++ l₂ := by
    rw [List.filter_append, List.filter_cons]
    have hw0 : (!(w.utterance.id == w.utterance.id)) = false := by simp
    rw [hw0]
    simp only [Bool.false_eq_true, if_false]
    rw [filter_ne_id_eq_self (fun x hx => hid₁ x (hFmem x hx)), filter_ne_id_eq_self hid₂]
  have hchainRm :
      List.Chain' (fun x y : UtteranceWrapper => A.sc y.utterance x.utterance = false)
        (l₁.filter (fun x => !(A.sc w.utterance x.utterance)) ++ l₂) :=
    (List.Pairwise.sublist (List.Sublist.append hFsub (List.Sublist.refl l₂)) hpw).chain'
  unfold amendedPrioritizedQueue
  dsimp only
  cases hchk : (l₁.filter (fun x => !(A.sc w.utterance x.utterance)) ++ w :: l₂)[l₁.length + 1]?
    with
  | none =>
    apply hassemble
    intro y hy
    by_cases hF : l₁.filter (fun x => !(A.sc w.utterance x.utterance)) = l₁
    · exfalso
      rw [hF, List.getElem?_append_right (by omega)] at hchk
      have : l₁.length + 1 - l₁.length = 1 := by omega
      rw [this, List.getElem?_cons_succ] at hchk
      rw [List.head?_eq_getElem? l₂, hchk] at hy
      simp at hy
    · exact hql hF y (List.mem_of_mem_head? hy)
  | some c =>
    dsimp only
    by_cases hsc : A.sc c.utterance w.utterance = true
    · rw [if_pos hsc, hqrm]
      exact hchainRm
    · rw [if_neg hsc]
      apply hassemble
      intro y hy
      by_cases hF : l₁.filter (fun x => !(A.sc w.utterance x.utterance)) = l₁
      · rw [hF, List.getElem?_append_right (by omega)] at hchk
        have h1 : l₁.length + 1 - l₁.length = 1 := by omega
        rw [h1, List.getElem?_cons_succ] at hchk
        rw [List.head?_eq_getElem? l₂, hchk] at hy
        have hyc : c = y := by simpa using hy
        rw [← hyc]
        simpa using hsc
      · exact hql hF y (List.mem_of_mem_head? hy)

/-- Witness for the amended claim C4: the concrete three-entry queue of
priorities 3, 2, 1 with the middle entry as seed, under the default
announcer. -/
theorem claim_C4_witness :
    chainNoCancelBackward exAnnouncer
      (prioritizeUtterances exAnnouncer (exWrapper 61 5 2)
        { exEmptyState with
          queue := [exWrapper 60 4 3, exWrapper 61 5 2, exWrapper 62 6 1]
          listeners := [4, 5, 6] }).queue :=
  claim_C4_amended exAnnouncer (exWrapper 61 5 2) [exWrapper 60 4 3] [exWrapper 62 6 1]
    { exEmptyState with
      queue := [exWrapper 60 4 3, exWrapper 61 5 2, exWrapper 62 6 1]
      listeners := [4, 5, 6] }
    rfl (by decide) (by decide) defaultShouldCancel_quasiTransitive (by decide)

theorem countP_uid_filter_zero (uid : ℕ) (q : List UtteranceWrapper) :
    (q.filter (fun x => !(x.utterance.id == uid))).countP
      (fun x => x.utterance.id == uid) = 0 := by
  apply List.countP_eq_zero.mpr
  intro x hx
  have := (List.mem_filter.mp hx).2
  simpa using this

theorem announceImmediately_spec (A : AnnouncerModel) (a : IAlertable) (st : QueueState)
    (hen : st.enabled = true) (hin : st.initialized = true) :
    (announceImmediately A a st).queue.countP
      (fun x => x.utterance.id == uidOfAlertable a st) ≤ 1 ∧
    (∀ x ∈ (announceImmediately A a st).queue, x.utterance.id = uidOfAlertable a st →
      x = { (prepareUtterance a st).1 with
            stableTime := QTime.top, timeInQueue := QTime.top }) := by
  have hwid : (prepareUtterance a st).1.utterance.id = uidOfAlertable a st := by
    rw [prepareUtterance_fst]
    exact wrapAlertable_fst_id a st
  have hbase1 : (({ (prepareUtterance a st).1 with
        stableTime := QTime.top, timeInQueue := QTime.top } : UtteranceWrapper) ::
        (prepareUtterance a st).2.queue).countP
      (fun x => x.utterance.id == uidOfAlertable a st) = 1 := by
    rw [List.countP_cons]
    have h0 : (prepareUtterance a st).2.queue.countP
        (fun x => x.utterance.id == uidOfAlertable a st) = 0 := by
      rw [prepareUtterance_snd]
      exact countP_uid_filter_zero _ _
    rw [h0]
    simp [hwid]
  have hbase2 : ∀ x ∈ (({ (prepareUtterance a st).1 with
        stableTime := QTime.top, timeInQueue := QTime.top } : UtteranceWrapper) ::
        (prepareUtterance a st).2.queue),
      x.utterance.id = uidOfAlertable a st →
      x = { (prepareUtterance a st).1 with
            stableTime := QTime.top, timeInQueue := QTime.top } := by
    intro x hx hxid
    rcases List.mem_cons.mp hx with rfl | hx
    · rfl
    · exfalso
      rw [prepareUtterance_snd] at hx
      have := (List.mem_filter.mp hx).2
      rw [hxid] at this
      simp at this
  have hquf : (announceImmediately A a st).queue.Sublist
      (({ (prepareUtterance a st).1 with
          stableTime := QTime.top, timeInQueue := QTime.top } : UtteranceWrapper) ::
        (prepareUtterance a st).2.queue) := by
    unfold announceImmediately
    rw [if_pos (by simp [hen, hin])]
    dsimp only
    obtain ⟨q₃, ls₃, nf₃, heq₃, hsub₃⟩ :=
      addPriorityListenerAndPrioritizeQueue_shape A
        { (prepareUtterance a st).1 with stableTime := QTime.top, timeInQueue := QTime.top }
        { (prepareUtterance a st).2 with
          queue :=
            { (prepareUtterance a st).1 with
              stableTime := QTime.top, timeInQueue := QTime.top } ::
              (prepareUtterance a st).2.queue }
    rw [heq₃]
    dsimp only
    split
    · obtain ⟨qa, lsa, ana, heqa, hsuba⟩ :=
        attemptToAnnounce_shape A
          { (prepareUtterance a st).1 with stableTime := QTime.top, timeInQueue := QTime.top }
          _
      rw [heqa]
      exact hsuba.trans hsub₃
    · exact hsub₃
  constructor
  · have h := List.Sublist.countP_le (fun x => x.utterance.id == uidOfAlertable a st) hquf
    rw [hbase1] at h
    exact h
  · intro x hx hxid
    exact hbase2 x (hquf.subset hx) hxid

theorem addToBack_push_spec (A : AnnouncerModel) (a : IAlertable) (st : QueueState)
    (hen : st.enabled = true) (hin : st.initialized = true)
    (hroute : (A.announceImmediatelyUntilSpeaking && !A.hasSpoken) = false) :
    (addToBack A a st).queue.countP
      (fun x => x.utterance.id == uidOfAlertable a st) ≤ 1 ∧
    (∀ x ∈ (addToBack A a st).queue, x.utterance.id = uidOfAlertable a st →
      x = (prepareUtterance a st).1) := by
  have hwid : (prepareUtterance a st).1.utterance.id = uidOfAlertable a st := by
    rw [prepareUtterance_fst]
    exact wrapAlertable_fst_id a st
  have hbase1 : ((prepareUtterance a st).2.queue ++ [(prepareUtterance a st).1]).countP
      (fun x => x.utterance.id == uidOfAlertable a st) = 1 := by
    rw [List.countP_append]
    have h0 : (prepareUtterance a st).2.queue.countP
        (fun x => x.utterance.id == uidOfAlertable a st) = 0 := by
      rw [prepareUtterance_snd]
      exact countP_uid_filter_zero _ _
    rw [h0, List.countP_cons]
    simp [hwid]
  have hbase2 : ∀ x ∈ (prepareUtterance a st).2.queue ++ [(prepareUtterance a st).1],
      x.utterance.id = uidOfAlertable a st → x = (prepareUtterance a st).1 := by
    intro x hx hxid
    rcases List.mem_append.mp hx with hx | hx
    · exfalso
      rw [prepareUtterance_snd] at hx
      have := (List.mem_filter.mp hx).2
      rw [hxid] at this
      simp at this
    · simpa using hx
  have hquf : (addToBack A a st).queue.Sublist
      ((prepareUtterance a st).2.queue ++ [(prepareUtterance a st).1]) := by
    unfold addToBack
    rw [if_pos (by simp [hen, hin]), if_neg (by simp [hroute])]
    dsimp only
    obtain ⟨q₃, ls₃, nf₃, heq₃, hsub₃⟩ :=
      addPriorityListenerAndPrioritizeQueue_shape A (prepareUtterance a st).1
        { (prepareUtterance a st).2 with
          queue := (prepareUtterance a st).2.queue ++ [(prepareUtterance a st).1] }
    rw [heq₃]
    exact hsub₃
  constructor
  · have h := List.Sublist.countP_le (fun x => x.utterance.id == uidOfAlertable a st) hquf
    rw [hbase1] at h
    exact h
  · intro x hx hxid
    exact hbase2 x (hquf.subset hx) hxid

/-- Claim C1: after `addToBack` or `announceImmediately` on an enabled
queue an utterance has at most one entry; prior entries are removed with
the maximal prior `timeInQueue` carried onto the new entry and
`stableTime` reset to 0; `announceImmediately` subsequently overrides both
timers with infinity. -/
theorem claim_C1_single_entry_and_time_transfer (A : AnnouncerModel) (a : IAlertable)
    (st : QueueState) (hen : st.enabled = true) (hin : st.initialized = true) :
    claimC1Statement A a st := by
  have hAI := announceImmediately_spec A a st hen hin
  refine ⟨?_, hAI.1, ?_, ?_, ?_, ?_, ?_⟩
  · by_cases hroute : (A.announceImmediatelyUntilSpeaking && !A.hasSpoken) = true
    · have heq : addToBack A a st = announceImmediately A a st := by
        unfold addToBack
        rw [if_pos (by simp [hen, hin]), if_pos hroute]
      rw [heq]
      exact hAI.1
    · have hroute' : (A.announceImmediatelyUntilSpeaking && !A.hasSpoken) = false := by
        simpa using hroute
      exact (addToBack_push_spec A a st hen hin hroute').1
  · rw [prepareUtterance_snd]
    dsimp only
    apply List.filter_eq_nil_iff.mpr
    intro x hx
    have := (List.mem_filter.mp hx).2
    simpa using this
  · rw [prepareUtterance_fst]
  · intro hne
    rw [prepareUtterance_fst]
    dsimp only
    rw [if_neg (by simpa [List.isEmpty_iff] using hne)]
  · intro x hx hxid
    have heq := hAI.2 x hx hxid
    rw [heq]
    exact ⟨rfl, rfl⟩
  · intro hroute x hx hxid
    have heq := (addToBack_push_spec A a st hen hin hroute).2 x hx hxid
    rw [heq]
    refine ⟨rfl, ?_, ?_⟩
    · rw [prepareUtterance_fst]
    · intro hne
      rw [prepareUtterance_fst]
      dsimp only
      rw [if_neg (by simpa [List.isEmpty_iff] using hne)]

/-- Witness for claim C1: adding a concrete utterance (already queued at
position one) to the concrete three-entry queue. -/
theorem claim_C1_witness :
    claimC1Statement exAnnouncer (.utt (exUtterance 2 1)) exStateC3 :=
  claim_C1_single_entry_and_time_transfer exAnnouncer (.utt (exUtterance 2 1)) exStateC3
    rfl rfl

theorem notifyFront_listeners (st : QueueState) :
    (notifyFront st).listeners = st.listeners := by
  unfold notifyFront
  split <;> rfl

theorem notifyFront_muted (st : QueueState) : (notifyFront st).muted = st.muted := by
  unfold notifyFront
  split <;> rfl

theorem notifyFront_announced (st : QueueState) :
    (notifyFront st).announced = st.announced := by
  unfold notifyFront
  split <;> rfl

/-- Prioritisation seeded at the front entry of the queue: the sweep is
empty, and the backwards look either keeps the seed (when nothing is
behind it or the entry behind it does not cancel it) or removes exactly
the seed. -/
theorem addPriority_front (A : AnnouncerModel) (w' : UtteranceWrapper)
    (rest : List UtteranceWrapper) (st : QueueState) (ins : List ℕ)
    (hq : st.queue = w' :: rest)
    (hins : ins = if st.listeners.contains w'.utterance.id then st.listeners
      else st.listeners ++ [w'.utterance.id]) :
    (addPriorityListenerAndPrioritizeQueue A w' st =
        notifyFront { st with listeners := ins } ∧
      (∀ c ∈ rest.head?, A.sc c.utterance w'.utterance = false)) ∨
    (∃ c, rest.head? = some c ∧ A.sc c.utterance w'.utterance = true ∧
      addPriorityListenerAndPrioritizeQueue A w' st =
        notifyFront (removeUtterance w'.utterance.id { st with listeners := ins })) := by
  unfold addPriorityListenerAndPrioritizeQueue
  rw [← hins]
  unfold prioritizeUtterances
  dsimp only
  have hq' : ({ st with listeners := ins } : QueueState).queue = w' :: rest := hq
  have hfi : ({ st with listeners := ins } : QueueState).queue.findIdx?
      (fun x => x.wid == w'.wid) = some 0 := by
    rw [hq', List.findIdx?_cons]
    simp
  rw [hfi]
  dsimp only
  rw [sweep_zero]
  unfold backCheck
  rw [show (0 + 1 : ℕ) = 1 from rfl]
  have hb : ({ st with listeners := ins } : QueueState).queue[1]? = rest.head? := by
    rw [hq', List.getElem?_cons_succ, List.head?_eq_getElem? rest]
  rw [hb]
  cases hc : rest.head? with
  | none =>
    dsimp only
    exact Or.inl ⟨rfl, by intro c hcmem; simp at hcmem⟩
  | some c =>
    dsimp only
    by_cases hsc : A.sc c.utterance w'.utterance = true
    · rw [if_pos hsc]
      exact Or.inr ⟨c, rfl, hsc, rfl⟩
    · rw [if_neg hsc]
      refine Or.inl ⟨rfl, ?_⟩
      intro d hdmem
      have : c = d := by simpa using hdmem
      rw [← this]
      simpa using hsc

theorem removeUtterance_announced (uid : ℕ) (st : QueueState) :
    (removeUtterance uid st).announced = st.announced := rfl

/-- Claim C7: `announceImmediately` on an initialized enabled queue
de-duplicates, forces both timers of the new front entry to infinity,
keeps the in-queue priority subscription while the entry is queued, leaves
the surviving entry at the front when the announcer is not ready, and
announces synchronously when the announcer is ready and the gates pass; a
disabled queue is left unchanged. -/
theorem claim_C7_announce_immediately (A : AnnouncerModel) (a : IAlertable) (st : QueueState)
    (hin : st.initialized = true)
    (hwids : ∀ x ∈ st.queue, x.wid < st.nextWid) : claimC7Statement A a st := by
  constructor
  · intro hen
    unfold announceImmediately
    rw [if_neg (by simp [hen])]
  · intro hen
    have hAIspec := announceImmediately_spec A a st hen hin
    unfold claimC7Statement at *
    set p1 := (prepareUtterance a st).1 with hp1def
    set p2 := (prepareUtterance a st).2 with hp2def
    set w' : UtteranceWrapper :=
      { p1 with stableTime := QTime.top, timeInQueue := QTime.top } with hw'def
    set st₂ : QueueState := { p2 with queue := w' :: p2.queue } with hst₂def
    set st₃ : QueueState := addPriorityListenerAndPrioritizeQueue A w' st₂ with hst₃def
    set uid := uidOfAlertable a st with huiddef
    have huid : p1.utterance.id = uid := by
      rw [hp1def, huiddef, prepareUtterance_fst]
      exact wrapAlertable_fst_id a st
    have hp1wid : p1.wid = st.nextWid := by
      rw [hp1def, prepareUtterance_fst]
    have hdedup : ∀ x ∈ p2.queue, x.utterance.id ≠ uid := by
      intro x hx
      rw [hp2def, prepareUtterance_snd] at hx
      have := (List.mem_filter.mp hx).2
      rw [huiddef]
      simpa using this
    have hp2mem : ∀ x ∈ p2.queue, x ∈ st.queue := by
      intro x hx
      rw [hp2def, prepareUtterance_snd] at hx
      exact (List.mem_filter.mp hx).1
    have hp2wid : ∀ x ∈ p2.queue, (x.wid == p1.wid) = false := by
      intro x hx
      have hlt := hwids x (hp2mem x hx)
      rw [hp1wid, beq_eq_false_iff_ne]
      omega
    have hp2muted : p2.muted = st.muted := by
      rw [hp2def, prepareUtterance_snd]
    have hp2ann : p2.announced = st.announced := by
      rw [hp2def, prepareUtterance_snd]
    have hw'wid : w'.wid = p1.wid := rfl
    have hw'utt : w'.utterance = p1.utterance := rfl
    have hw'id : w'.utterance.id = uid := huid
    have hdedup' : ∀ x ∈ p2.queue, x.utterance.id ≠ w'.utterance.id := by
      intro x hx
      rw [hw'id]
      exact hdedup x hx
    have hp2wid' : ∀ x ∈ p2.queue, (x.wid == w'.wid) = false := by
      intro x hx
      rw [hw'wid]
      exact hp2wid x hx
    have hfilterw' : (w' :: p2.queue).filter
        (fun x => !(x.utterance.id == w'.utterance.id)) = p2.queue := by
      rw [List.filter_cons]
      have hself : (!(w'.utterance.id == w'.utterance.id)) = false := by simp
      rw [hself]
      simp only [Bool.false_eq_true, if_false]
      exact filter_ne_id_eq_self hdedup'
    -- the if-expression the listener map becomes
    have hAIeq : announceImmediately A a st =
        (if st₃.queue.any (fun x => x.wid == w'.wid) then attemptToAnnounce A w' st₃
         else st₃) := by
      rw [hst₃def, hst₂def, hw'def, hp2def, hp1def]
      unfold announceImmediately
      rw [if_pos (by simp [hen, hin])]
    rcases addPriority_front A w' p2.queue st₂ _ rfl rfl with ⟨hst₃eq, hheads⟩ | ⟨c, hhead, hcsc, hst₃eq⟩
    · -- the seed survives the backwards look
      have hq3 : st₃.queue = w' :: p2.queue := by
        rw [hst₃def, hst₃eq, notifyFront_queue]
      have hls3 : st₃.listeners =
          (if st₂.listeners.contains w'.utterance.id then st₂.listeners
           else st₂.listeners ++ [w'.utterance.id]) := by
        rw [hst₃def, hst₃eq, notifyFront_listeners]
      have hmut3 : st₃.muted = st.muted := by
        rw [hst₃def, hst₃eq, notifyFront_muted]
        exact hp2muted
      have hann3 : st₃.announced = st.announced := by
        rw [hst₃def, hst₃eq, notifyFront_announced]
        exact hp2ann
      have hanytrue : st₃.queue.any (fun x => x.wid == w'.wid) = true := by
        rw [hq3, List.any_cons]
        simp
      have hAIeq₂ : announceImmediately A a st = attemptToAnnounce A w' st₃ := by
        rw [hAIeq, if_pos hanytrue]
      have huidins : uid ∈
          (if st₂.listeners.contains w'.utterance.id then st₂.listeners
           else st₂.listeners ++ [w'.utterance.id]) := by
        by_cases hct : st₂.listeners.contains w'.utterance.id = true
        · rw [if_pos hct]
          rw [← hw'id]
          simpa using hct
        · rw [if_neg hct]
          apply List.mem_append_right
          rw [← hw'id]
          exact List.mem_singleton.mpr rfl
      refine ⟨?_, ?_, ?_, ?_, ?_⟩
      · intro x hx hxid
        exact absurd hxid (hdedup x hx)
      · intro x hx hxid
        rw [hAIspec.2 x hx hxid]
        exact ⟨rfl, rfl⟩
      · -- the in-queue priority subscription
        intro hany
        by_cases hready : A.readyToAnnounce = true
        · exfalso
          have hAIqueue : (announceImmediately A a st).queue = p2.queue := by
            rw [hAIeq₂]
            unfold attemptToAnnounce
            rw [if_pos hready]
            dsimp only
            split
            · rw [removeUtterance_queue]
              dsimp only
              rw [hq3]
              exact hfilterw'
            · rw [removeUtterance_queue, hq3]
              exact hfilterw'
          rw [hAIqueue] at hany
          obtain ⟨x, hx, hpx⟩ := List.any_eq_true.mp hany
          rw [hp2wid x hx] at hpx
          exact absurd hpx (by simp)
        · have hAIst₃ : announceImmediately A a st = st₃ := by
            rw [hAIeq₂]
            unfold attemptToAnnounce
            rw [if_neg hready]
          rw [hAIst₃, hls3]
          exact huidins
      · intro hready hany₃
        have hAIst₃ : announceImmediately A a st = st₃ := by
          rw [hAIeq₂]
          unfold attemptToAnnounce
          rw [if_neg (by simp [hready])]
        exact ⟨p2.queue, by rw [hAIst₃, hq3]⟩
      · intro hready hany₃ hmuted hpred htext
        rw [hAIeq₂]
        unfold attemptToAnnounce
        rw [if_pos hready]
        dsimp only
        have hcond : st₃.muted = false ∧ w'.utterance.predicateHolds = true ∧
            getAlertText A.respectResponseCollectorProperties w'.utterance ≠ .str "" := by
          refine ⟨by rw [hmut3]; exact hmuted, ?_, ?_⟩
          · rw [hw'utt]
            exact hpred
          · rw [hw'utt]
            exact htext
        rw [if_pos hcond]
        rw [if_pos hanytrue, removeUtterance_announced]
        dsimp only
        rw [hann3, hw'id]
    · -- the entry behind the seed cancels it: the seed is removed again
      have hq3 : st₃.queue = p2.queue := by
        rw [hst₃def, hst₃eq, notifyFront_queue, removeUtterance_queue]
        exact hfilterw'
      have hanyfalse : st₃.queue.any (fun x => x.wid == w'.wid) = false := by
        rw [hq3]
        exact List.any_eq_false.mpr (fun x hx => by rw [hp2wid' x hx]; simp)
      have hAIst₃ : announceImmediately A a st = st₃ := by
        rw [hAIeq, if_neg (by simp [hanyfalse])]
      have hanyfalse₁ : st₃.queue.any (fun x => x.wid == p1.wid) = false := by
        rw [hq3]
        exact List.any_eq_false.mpr (fun x hx => by rw [hp2wid x hx]; simp)
      refine ⟨?_, ?_, ?_, ?_, ?_⟩
      · intro x hx hxid
        exact absurd hxid (hdedup x hx)
      · intro x hx hxid
        rw [hAIspec.2 x hx hxid]
        exact ⟨rfl, rfl⟩
      · intro hany
        exfalso
        rw [hAIst₃] at hany
        rw [hany] at hanyfalse₁
        exact absurd hanyfalse₁ (by simp)
      · intro hready hany₃
        exfalso
        rw [hany₃] at hanyfalse₁
        exact absurd hanyfalse₁ (by simp)
      · intro hready hany₃ hmuted hpred htext
        exfalso
        rw [hany₃] at hanyfalse₁
        exact absurd hanyfalse₁ (by simp)

/-- Witness for claim C7 at the concrete three-entry queue, re-announcing
its middle utterance. -/
theorem claim_C7_witness : claimC7Statement exAnnouncer (.utt (exUtterance 2 1)) exStateC3 :=
  claim_C7_announce_immediately exAnnouncer (.utt (exUtterance 2 1)) exStateC3 rfl (by decide)

/-- Prioritisation seeded at the last entry of the queue: the backwards
look finds nothing behind the seed, so the result is the sweep alone. -/
theorem prioritize_last (A : AnnouncerModel) (w : UtteranceWrapper)
    (front : List UtteranceWrapper) (st : QueueState)
    (hq : st.queue = front ++ [w])
    (hfw : ∀ x ∈ front, (x.wid == w.wid) = false) :
    ∃ keep : UtteranceWrapper → Bool,
      (prioritizeUtterances A w st).queue = (front ++ [w]).filter keep ∧
      ∀ x ∈ front ++ [w], keep x = false →
        ∃ y ∈ front ++ [w], y.utterance.id = x.utterance.id ∧
          A.sc w.utterance y.utterance = true := by
  obtain ⟨keep, hkq, hkprop⟩ := sweep_queue_filter A w.utterance front.length st
  have hfind : st.queue.findIdx? (fun x => x.wid == w.wid) = some front.length := by
    rw [hq]
    exact findIdx?_prefix _ front w [] hfw (by simp)
  unfold prioritizeUtterances
  rw [hfind]
  dsimp only
  rw [notifyFront_queue]
  unfold backCheck
  have hlen : (sweep A w.utterance front.length st).queue.length ≤ front.length + 1 := by
    rw [hkq]
    have h1 : (List.filter keep st.queue).length ≤ st.queue.length :=
      List.length_filter_le keep st.queue
    have h2 : st.queue.length = front.length + 1 := by rw [hq]; simp
    omega
  have hnone : (sweep A w.utterance front.length st).queue[front.length + 1]? = none :=
    List.getElem?_eq_none hlen
  rw [hnone]
  dsimp only
  refine ⟨keep, by rw [hkq, hq], ?_⟩
  intro x hx hkx
  have hres := hkprop x (by rw [hq]; exact hx) hkx
  obtain ⟨y, hy, hyid, hysc⟩ := hres
  rw [hq] at hy
  exact ⟨y, hy, hyid, hysc⟩

theorem addToBack_raw_spec (A : AnnouncerModel) (r : AlertableNonUtterance) (st : QueueState)
    (hen : st.enabled = true) (hin : st.initialized = true)
    (hroute : (A.announceImmediatelyUntilSpeaking && !A.hasSpoken) = false)
    (hsc : A.sc = defaultShouldUtteranceCancelOther)
    (hids : ∀ x ∈ st.queue, x.utterance.id < st.nextUttId)
    (hwidb : ∀ x ∈ st.queue, x.wid < st.nextWid) :
    ∃ keep : UtteranceWrapper → Bool,
      (addToBack A (.raw r) st).queue =
        st.queue.filter keep ++ [⟨st.nextWid, freshUtterance st.nextUttId r, .fin 0, .fin 0⟩] ∧
      (∀ x ∈ st.queue, keep x = false →
        ∃ y, (y ∈ st.queue ∨ y = ⟨st.nextWid, freshUtterance st.nextUttId r, .fin 0, .fin 0⟩) ∧
          y.utterance.id = x.utterance.id ∧
          A.sc (freshUtterance st.nextUttId r) y.utterance = true) ∧
      (addToBack A (.raw r) st).enabled = st.enabled ∧
      (addToBack A (.raw r) st).initialized = st.initialized ∧
      (addToBack A (.raw r) st).nextUttId = st.nextUttId + 1 ∧
      (addToBack A (.raw r) st).nextWid = st.nextWid + 1 := by
  have hfilternil : st.queue.filter (fun x => x.utterance.id == st.nextUttId) = [] :=
    List.filter_eq_nil_iff.mpr (fun x hx => by
      have := hids x hx
      simp only [beq_iff_eq]
      omega)
  have hfilterid : st.queue.filter (fun x => !(x.utterance.id == st.nextUttId)) = st.queue :=
    List.filter_eq_self.mpr (fun x hx => by
      have := hids x hx
      simp only [Bool.not_eq_eq_eq_not, Bool.not_true, beq_eq_false_iff_ne, ne_eq]
      omega)
  have hfst : (prepareUtterance (.raw r) st).1 =
      ⟨st.nextWid, freshUtterance st.nextUttId r, .fin 0, .fin 0⟩ := by
    rw [prepareUtterance_fst]
    have hempty : ((st.queue.filter
        (fun x => x.utterance.id == uidOfAlertable (.raw r) st)).map
        (fun x => x.timeInQueue)).isEmpty = true := by
      show ((st.queue.filter (fun x => x.utterance.id == st.nextUttId)).map
        (fun x => x.timeInQueue)).isEmpty = true
      rw [hfilternil]
      rfl
    rw [if_pos hempty]
    rfl
  have hsnd : (prepareUtterance (.raw r) st).2.queue = st.queue := by
    rw [prepareUtterance_snd]
    exact hfilterid
  have haddeq : addToBack A (.raw r) st =
      addPriorityListenerAndPrioritizeQueue A (prepareUtterance (.raw r) st).1
        { (prepareUtterance (.raw r) st).2 with
          queue := (prepareUtterance (.raw r) st).2.queue ++ [(prepareUtterance (.raw r) st).1] } := by
    unfold addToBack
    rw [if_pos (by simp [hen, hin]), if_neg (by simp [hroute])]
  have hwprio := prioritize_last A (prepareUtterance (.raw r) st).1 st.queue
    { ({ (prepareUtterance (.raw r) st).2 with
        queue := (prepareUtterance (.raw r) st).2.queue ++ [(prepareUtterance (.raw r) st).1] } :
        QueueState) with
      listeners :=
        if (({ (prepareUtterance (.raw r) st).2 with
            queue := (prepareUtterance (.raw r) st).2.queue ++
              [(prepareUtterance (.raw r) st).1] } : QueueState).listeners.contains
            (prepareUtterance (.raw r) st).1.utterance.id) then
          ({ (prepareUtterance (.raw r) st).2 with
            queue := (prepareUtterance (.raw r) st).2.queue ++
              [(prepareUtterance (.raw r) st).1] } : QueueState).listeners
        else
          ({ (prepareUtterance (.raw r) st).2 with
            queue := (prepareUtterance (.raw r) st).2.queue ++
              [(prepareUtterance (.raw r) st).1] } : QueueState).listeners ++
            [(prepareUtterance (.raw r) st).1.utterance.id] }
    (by dsimp only; rw [hsnd])
    (by
      intro x hx
      have hlt := hwidb x hx
      rw [hfst]
      simp only [beq_eq_false_iff_ne, ne_eq]
      omega)
  obtain ⟨keep, hkq, hkprop⟩ := hwprio
  rw [hfst] at hkq hkprop
  have hkeepw : keep ⟨st.nextWid, freshUtterance st.nextUttId r, .fin 0, .fin 0⟩ = true := by
    by_contra hkf
    have hkf' : keep ⟨st.nextWid, freshUtterance st.nextUttId r, .fin 0, .fin 0⟩ = false := by
      cases h : keep ⟨st.nextWid, freshUtterance st.nextUttId r, .fin 0, .fin 0⟩
      · rfl
      · exact absurd h hkf
    obtain ⟨y, hy, hyid, hysc⟩ := hkprop _ (List.mem_append_right _ (by simp)) hkf'
    rcases List.mem_append.mp hy with hy | hy
    · have := hids y hy
      have hyid2 : y.utterance.id = st.nextUttId := hyid
      omega
    · have hyeq : y = ⟨st.nextWid, freshUtterance st.nextUttId r, .fin 0, .fin 0⟩ := by
        simpa using hy
      rw [hyeq, hsc] at hysc
      unfold defaultShouldUtteranceCancelOther at hysc
      simp at hysc
  refine ⟨keep, ?_, ?_, ?_, ?_, ?_, ?_⟩
  · rw [haddeq]
    unfold addPriorityListenerAndPrioritizeQueue
    rw [hfst]
    rw [hkq, List.filter_append, List.filter_cons]
    rw [hkeepw]
    simp
  · intro x hx hkx
    obtain ⟨y, hy, hyid, hysc⟩ := hkprop x (List.mem_append_left _ hx) hkx
    rcases List.mem_append.mp hy with hy | hy
    · exact ⟨y, Or.inl hy, hyid, hysc⟩
    · exact ⟨y, Or.inr (by simpa using hy), hyid, hysc⟩
  · rw [haddeq]
    obtain ⟨q', ls', nf', heq', -⟩ := addPriorityListenerAndPrioritizeQueue_shape A _ _
    rw [heq']
    dsimp only
    rw [prepareUtterance_snd]
  · rw [haddeq]
    obtain ⟨q', ls', nf', heq', -⟩ := addPriorityListenerAndPrioritizeQueue_shape A _ _
    rw [heq']
    dsimp only
    rw [prepareUtterance_snd]
  · rw [haddeq]
    obtain ⟨q', ls', nf', heq', -⟩ := addPriorityListenerAndPrioritizeQueue_shape A _ _
    rw [heq']
    dsimp only
    rw [prepareUtterance_snd]
    rfl
  · rw [haddeq]
    obtain ⟨q', ls', nf', heq', -⟩ := addPriorityListenerAndPrioritizeQueue_shape A _ _
    rw [heq']
    dsimp only
    rw [prepareUtterance_snd]

/-- C10: a raw alertable is wrapped in a freshly constructed `Utterance`
on every `addToBack` call, so two successive `addToBack` calls with the
same string leave two distinct entries at the back of the queue, with
distinct utterance ids and the same resolved string alert; neither call
replaces the other entry. -/
theorem claim_C10_raw_wrapped_fresh (A : AnnouncerModel) (s : String) (st : QueueState)
    (hen : st.enabled = true) (hin : st.initialized = true)
    (hroute : (A.announceImmediatelyUntilSpeaking && !A.hasSpoken) = false)
    (hsc : A.sc = defaultShouldUtteranceCancelOther)
    (hids : ∀ x ∈ st.queue, x.utterance.id < st.nextUttId)
    (hwidb : ∀ x ∈ st.queue, x.wid < st.nextWid) :
    claimC10Statement A s st := by
  obtain ⟨k1, hq1, hkp1, hen1, hin1, hnid1, hwid1⟩ :=
    addToBack_raw_spec A (.resolved (.str s)) st hen hin hroute hsc hids hwidb
  set st1 := addToBack A (.raw (.resolved (.str s))) st with hst1
  have hids1 : ∀ x ∈ st1.queue, x.utterance.id < st1.nextUttId := by
    intro x hx
    rw [hq1] at hx
    rw [hnid1]
    rcases List.mem_append.mp hx with hx | hx
    · have := hids x (List.mem_filter.mp hx).1
      omega
    · have hxe : x = ⟨st.nextWid, freshUtterance st.nextUttId (.resolved (.str s)),
          .fin 0, .fin 0⟩ := by simpa using hx
      rw [hxe]
      show st.nextUttId < st.nextUttId + 1
      omega
  have hwid1b : ∀ x ∈ st1.queue, x.wid < st1.nextWid := by
    intro x hx
    rw [hq1] at hx
    rw [hwid1]
    rcases List.mem_append.mp hx with hx | hx
    · have := hwidb x (List.mem_filter.mp hx).1
      omega
    · have hxe : x = ⟨st.nextWid, freshUtterance st.nextUttId (.resolved (.str s)),
          .fin 0, .fin 0⟩ := by simpa using hx
      rw [hxe]
      show st.nextWid < st.nextWid + 1
      omega
  obtain ⟨k2, hq2, hkp2, -, -, -, -⟩ :=
    addToBack_raw_spec A (.resolved (.str s)) st1 (by rw [hen1, hen]) (by rw [hin1, hin])
      hroute hsc hids1 hwid1b
  have hw1mem : (⟨st.nextWid, freshUtterance st.nextUttId (.resolved (.str s)),
      .fin 0, .fin 0⟩ : UtteranceWrapper) ∈ st1.queue := by
    rw [hq1]
    exact List.mem_append_right _ (by simp)
  have hk2w1 : k2 ⟨st.nextWid, freshUtterance st.nextUttId (.resolved (.str s)),
      .fin 0, .fin 0⟩ = true := by
    by_contra hkf
    have hkf' : k2 ⟨st.nextWid, freshUtterance st.nextUttId (.resolved (.str s)),
        .fin 0, .fin 0⟩ = false := by
      cases h : k2 ⟨st.nextWid, freshUtterance st.nextUttId (.resolved (.str s)),
          .fin 0, .fin 0⟩
      · rfl
      · exact absurd h hkf
    obtain ⟨y, hy, hyid, hysc⟩ := hkp2 _ hw1mem hkf'
    have hyid' : y.utterance.id = st.nextUttId := hyid
    rcases hy with hy | hy
    · rw [hq1] at hy
      rcases List.mem_append.mp hy with hy | hy
      · have := hids y (List.mem_filter.mp hy).1
        omega
      · have hye : y = ⟨st.nextWid, freshUtterance st.nextUttId (.resolved (.str s)),
            .fin 0, .fin 0⟩ := by simpa using hy
        rw [hye, hsc] at hysc
        unfold defaultShouldUtteranceCancelOther at hysc
        simp [freshUtterance] at hysc
    · have hyid2 : y.utterance.id = st1.nextUttId := by rw [hy]; rfl
      rw [hnid1] at hyid2
      omega
  refine ⟨(st.queue.filter k1).filter k2,
    ⟨st.nextWid, freshUtterance st.nextUttId (.resolved (.str s)), .fin 0, .fin 0⟩,
    ⟨st1.nextWid, freshUtterance st1.nextUttId (.resolved (.str s)), .fin 0, .fin 0⟩,
    ?_, rfl, ?_, rfl, rfl⟩
  · rw [← hst1, hq2, hq1, List.filter_append, List.filter_cons]
    rw [hk2w1]
    simp
  · show st1.nextUttId = st.nextUttId + 1
    exact hnid1

/-- Witness for claim C10 on the empty example queue with the string hi. -/
theorem claim_C10_witness : claimC10Statement exAnnouncer "hi" exEmptyState :=
  claim_C10_raw_wrapped_fresh exAnnouncer "hi" exEmptyState rfl rfl rfl rfl
    (by simp [exEmptyState]) (by simp [exEmptyState])
